import Mathlib

/-!
Shallow embedding of the `composition` repository.

Part 1: the camera playground page (`HomePage` in the app source): overlay
mode cycling, aspect-ratio cycling, facing-mode toggling, and the crop
region computed by `handleCapture`.

Part 2: the color-space conversion engine.  The conversion source code is
not present in the repository snapshot (only the README describing the six
color models), so the conversion functions are modelled from the
specification, as marked in their doc comments.

JavaScript numbers are embedded as exact rationals (`ℚ`); integer-valued
channels as `Int`/`Nat`.
-/

/- ========================= Camera playground ========================= -/

/-- The `OverlayMode` type from the page source:
`'none' | 'thirds' | 'symmetry'`. -/
inductive OverlayMode where
  | none
  | thirds
  | symmetry
deriving DecidableEq, Repr

/-- The facing-mode state from the page source: `'user' | 'environment'`. -/
inductive FacingMode where
  | user
  | environment
deriving DecidableEq, Repr

/-- A `RatioOption` from the page source: a label and a numeric value. -/
structure RatioOption where
  label : String
  value : ℚ
deriving DecidableEq, Repr

/-- The `RATIOS` array from the page source. -/
def RATIOS : List RatioOption :=
  [⟨"1:1", 1⟩, ⟨"4:3", 4 / 3⟩, ⟨"3:2", 3 / 2⟩, ⟨"16:9", 16 / 9⟩]

/-- The `switchOverlay` handler from the page source:
`prev === 'none' ? 'thirds' : prev === 'thirds' ? 'symmetry' : 'none'`. -/
def switchOverlay : OverlayMode → OverlayMode
  | OverlayMode.none => OverlayMode.thirds
  | OverlayMode.thirds => OverlayMode.symmetry
  | OverlayMode.symmetry => OverlayMode.none

/-- The `switchCamera` handler from the page source:
`prev === 'user' ? 'environment' : 'user'`. -/
def switchCamera : FacingMode → FacingMode
  | FacingMode.user => FacingMode.environment
  | FacingMode.environment => FacingMode.user

/-- The `switchRatio` handler from the page source acting on the
`ratioIndex` state: `(prev + 1) % RATIOS.length`. -/
def switchRatioIndex (prev : Nat) : Nat :=
  (prev + 1) % RATIOS.length

/-- The `ratioIndex` state after `n` presses of the ratio button, starting
from the initial `useState(0)`. -/
def ratioIndexAfter : Nat → Nat
  | 0 => 0
  | n + 1 => switchRatioIndex (ratioIndexAfter n)

/-- The crop region computed by `handleCapture` in the page source, as a
function of the video dimensions and the target ratio value. -/
structure CropRegion where
  cropWidth : ℚ
  cropHeight : ℚ
  sx : ℚ
  sy : ℚ
deriving DecidableEq, Repr

/-- The `handleCapture` crop computation from the page source:
`videoRatio = videoWidth / videoHeight`; if `videoRatio > targetRatio` the
width shrinks to `videoHeight * targetRatio`, otherwise the height shrinks
to `videoWidth / targetRatio`; `sx`, `sy` center the crop. -/
def handleCaptureCrop (videoWidth videoHeight targetValue : ℚ) : CropRegion :=
  let videoValue := videoWidth / videoHeight
  let cropWidth := if videoValue > targetValue then videoHeight * targetValue else videoWidth
  let cropHeight := if videoValue > targetValue then videoHeight else videoWidth / targetValue
  { cropWidth := cropWidth
    cropHeight := cropHeight
    sx := (videoWidth - cropWidth) / 2
    sy := (videoHeight - cropHeight) / 2 }

/- ===================== Color conversion engine ===================== -/

/-- Modelled from the spec: the error taxonomy of the converter (§7) —
`InvalidFormat` for malformed HEX strings, `OutOfRange` for numeric fields
outside their declared domain in decoding conversions.  The converter
source itself is missing from the repository snapshot. -/
inductive ColorError where
  | InvalidFormat
  | OutOfRange
deriving DecidableEq, Repr

/-- An RGB color; channels are integers, nominally in [0,255] but encoding
conversions accept any integer and clamp. -/
structure RGB where
  r : Int
  g : Int
  b : Int
deriving DecidableEq, Repr

/-- An HSL color: hue in degrees, saturation and lightness as percentages. -/
structure HSL where
  h : ℚ
  s : ℚ
  l : ℚ
deriving DecidableEq, Repr

/-- A CMYK color, each channel a percentage. -/
structure CMYK where
  c : ℚ
  m : ℚ
  y : ℚ
  k : ℚ
deriving DecidableEq, Repr

/-- Modelled from the spec: clamp an RGB channel into [0,255] (§4.1,
encode conversions clamp out-of-domain inputs rather than reject). -/
def clampByte (x : Int) : Nat :=
  if x < 0 then 0 else if 255 < x then 255 else x.toNat

/-- Clamp an integer channel into [0,255], staying in `Int`. -/
def clampChannel (x : Int) : Int :=
  if x < 0 then 0 else if 255 < x then 255 else x

/-- The lowercase hexadecimal digit character for a value below 16. -/
def toHexChar (n : Nat) : Char :=
  if n < 10 then Char.ofNat (48 + n) else Char.ofNat (87 + n)

/-- The two lowercase hex digits of a byte. -/
def byteHex (n : Nat) : List Char :=
  [toHexChar (n / 16), toHexChar (n % 16)]

/-- The value of a hexadecimal digit character, case-insensitive;
`none` when the character is not a hex digit. -/
def hexDigitVal (c : Char) : Option Nat :=
  if '0' ≤ c ∧ c ≤ '9' then some (c.toNat - 48)
  else if 'a' ≤ c ∧ c ≤ 'f' then some (c.toNat - 87)
  else if 'A' ≤ c ∧ c ≤ 'F' then some (c.toNat - 55)
  else none

/-- Whether a character is a hexadecimal digit (either case). -/
def isHexDig (c : Char) : Bool := (hexDigitVal c).isSome

/-- The value of a hex digit character, defaulting to 0. -/
def hexVal (c : Char) : Nat := (hexDigitVal c).getD 0

/-- Drop one leading '#' if present. -/
def stripHash (cs : List Char) : List Char :=
  if cs.head? = some '#' then cs.tail else cs

/-- Modelled from the spec: a hex body is valid when it has 3 or 6
characters, all hexadecimal digits (§4.1 `hexToRgb`). -/
def validHexBody (cs : List Char) : Bool :=
  (cs.length = 3 || cs.length = 6) && cs.all isHexDig

/-- Decode a valid hex body: 3-digit shorthand expands each digit `d` to
`17 * d` (i.e. `dd`); 6 digits decode pairwise. -/
def decodeHexBody : List Char → RGB
  | [a, b, c] => ⟨17 * hexVal a, 17 * hexVal b, 17 * hexVal c⟩
  | [a, b, c, d, e, f] =>
      ⟨16 * hexVal a + hexVal b, 16 * hexVal c + hexVal d, 16 * hexVal e + hexVal f⟩
  | _ => ⟨0, 0, 0⟩

/-- Modelled from the spec: `hexToRgb` — accepts 3- or 6-digit hex, with or
without leading '#', case-insensitive; fails with `InvalidFormat` if the
length or charset does not match a hex color (§4.1). -/
def hexToRgb (s : String) : Except ColorError RGB :=
  if validHexBody (stripHash s.toList) then Except.ok (decodeHexBody (stripHash s.toList))
  else Except.error ColorError.InvalidFormat

/-- Modelled from the spec: `rgbToHex` — clamps each channel to [0,255]
before encoding; always emits the lowercase 6-digit form with a leading
'#' (§4.1). -/
def rgbToHex (rgb : RGB) : String :=
  String.mk ('#' :: (byteHex (clampByte rgb.r) ++
    byteHex (clampByte rgb.g) ++ byteHex (clampByte rgb.b)))

/-- Modelled from the spec: hue normalization — any computed hue is reduced
modulo 360 into [0, 360) (§3 invariants, §8). -/
def normalizeHue (x : ℚ) : ℚ := x - 360 * ⌊x / 360⌋

/-- Modelled from the spec: `rgbToHsl` — the standard cylindrical
transform; channels clamped to bytes, hue normalized into [0,360),
saturation and lightness returned as percentages; achromatic input yields
saturation 0 and hue 0. -/
def rgbToHsl (rgb : RGB) : HSL :=
  let r1 : ℚ := (clampByte rgb.r : ℚ) / 255
  let g1 : ℚ := (clampByte rgb.g : ℚ) / 255
  let b1 : ℚ := (clampByte rgb.b : ℚ) / 255
  let maxc := max r1 (max g1 b1)
  let minc := min r1 (min g1 b1)
  let delta := maxc - minc
  let l := (maxc + minc) / 2
  let s := if delta = 0 then 0 else delta / (1 - |2 * l - 1|)
  let raw : ℚ :=
    if delta = 0 then 0
    else if maxc = r1 then (g1 - b1) / delta
    else if maxc = g1 then (b1 - r1) / delta + 2
    else (r1 - g1) / delta + 4
  ⟨normalizeHue (60 * raw), 100 * s, 100 * l⟩

/-- Round half away from zero, the spec's rounding for final RGB bytes
(§4.1 numeric semantics). -/
def roundHalf (q : ℚ) : Int :=
  if 0 ≤ q then ⌊q + 1 / 2⌋ else -⌊-q + 1 / 2⌋

/-- Modelled from the spec: `hslToRgb` — fails with `OutOfRange` when s or
l lies outside [0,100]; otherwise the standard sector formula on the
normalized hue, channels scaled to bytes and rounded (§4.1). -/
def hslToRgb (hsl : HSL) : Except ColorError RGB :=
  if 0 ≤ hsl.s ∧ hsl.s ≤ 100 ∧ 0 ≤ hsl.l ∧ hsl.l ≤ 100 then
    let h1 := normalizeHue hsl.h
    let s1 := hsl.s / 100
    let l1 := hsl.l / 100
    let c := (1 - |2 * l1 - 1|) * s1
    let hp := h1 / 60
    let x := c * (1 - |hp - 2 * (⌊hp / 2⌋ : ℚ) - 1|)
    let m := l1 - c / 2
    let sector : Int := ⌊hp⌋
    let rgb1 : ℚ × ℚ × ℚ :=
      if sector = 0 then (c, x, 0)
      else if sector = 1 then (x, c, 0)
      else if sector = 2 then (0, c, x)
      else if sector = 3 then (0, x, c)
      else if sector = 4 then (x, 0, c)
      else (c, 0, x)
    Except.ok ⟨roundHalf (255 * (rgb1.1 + m)), roundHalf (255 * (rgb1.2.1 + m)),
      roundHalf (255 * (rgb1.2.2 + m))⟩
  else Except.error ColorError.OutOfRange

/-- Modelled from the spec: `rgbToCmyk` — the naive subtractive model:
`k = 1 − max(r,g,b)` on normalized channels, c, m, y normalized against
`1 − k`; pure black yields `k = 100`, `c = m = y = 0` by convention,
avoiding the division by zero (§3 invariants). Percent outputs. -/
def rgbToCmyk (rgb : RGB) : CMYK :=
  let r1 : ℚ := (clampByte rgb.r : ℚ) / 255
  let g1 : ℚ := (clampByte rgb.g : ℚ) / 255
  let b1 : ℚ := (clampByte rgb.b : ℚ) / 255
  let k1 := 1 - max r1 (max g1 b1)
  if k1 = 1 then ⟨0, 0, 0, 100⟩
  else
    ⟨100 * (1 - r1 - k1) / (1 - k1), 100 * (1 - g1 - k1) / (1 - k1),
      100 * (1 - b1 - k1) / (1 - k1), 100 * k1⟩

/-- Modelled from the spec: `cmykToRgb` — fails with `OutOfRange` if any
channel lies outside [0,100]; otherwise the naive subtractive inverse
`channel = 255 * (1 - c/100) * (1 - k/100)`, rounded (§4.1). -/
def cmykToRgb (cmyk : CMYK) : Except ColorError RGB :=
  if 0 ≤ cmyk.c ∧ cmyk.c ≤ 100 ∧ 0 ≤ cmyk.m ∧ cmyk.m ≤ 100 ∧
      0 ≤ cmyk.y ∧ cmyk.y ≤ 100 ∧ 0 ≤ cmyk.k ∧ cmyk.k ≤ 100 then
    Except.ok ⟨roundHalf (255 * (1 - cmyk.c / 100) * (1 - cmyk.k / 100)),
      roundHalf (255 * (1 - cmyk.m / 100) * (1 - cmyk.k / 100)),
      roundHalf (255 * (1 - cmyk.y / 100) * (1 - cmyk.k / 100))⟩
  else Except.error ColorError.OutOfRange

/-- Modelled from the spec: the inverse sRGB transfer function (encoded
value to linear light), piecewise with gamma 2.4 (§4.1 rgbToHcl route). -/
noncomputable def srgbToLinear (u : ℝ) : ℝ :=
  if u ≤ 0.04045 then u / 12.92 else ((u + 0.055) / 1.055) ^ (2.4 : ℝ)

/-- Modelled from the spec: the forward sRGB transfer function (linear
light to encoded value), the exact inverse of `srgbToLinear` stage-wise. -/
noncomputable def linearToSrgb (v : ℝ) : ℝ :=
  if v ≤ 0.04045 / 12.92 then 12.92 * v else 1.055 * v ^ ((1 : ℝ) / 2.4) - 0.055

/-- Real-valued hue normalization into [0, 360). -/
noncomputable def normalizeHueR (x : ℝ) : ℝ := x - 360 * ⌊x / 360⌋

/-- Round half away from zero on the reals. -/
noncomputable def roundHalfR (q : ℝ) : Int :=
  if 0 ≤ q then ⌊q + 1 / 2⌋ else -⌊-q + 1 / 2⌋

/-- Clamp a real channel into [0,255], then round: the final byte stage of
the perceptual reverse conversions (§4.1 clamp-on-reverse policy). -/
noncomputable def realToByte (x : ℝ) : Int :=
  roundHalfR (if x < 0 then 0 else if 255 < x then 255 else x)

/-- The chroma of a cartesian (a, b) pair. -/
noncomputable def polarChroma (a b : ℝ) : ℝ := Real.sqrt (a ^ 2 + b ^ 2)

/-- The hue, in degrees normalized to [0, 360), of a cartesian (a, b)
pair. -/
noncomputable def polarHue (a b : ℝ) : ℝ :=
  normalizeHueR (180 / Real.pi * Complex.arg ⟨a, b⟩)

/-- Modelled from the spec: linear-light RGB to CIE XYZ, the standard D65
3×3 sRGB matrix (§4.1 rgbToHcl route). -/
noncomputable def xyzOfLinear (p : ℝ × ℝ × ℝ) : ℝ × ℝ × ℝ :=
  (0.4124 * p.1 + 0.3576 * p.2.1 + 0.1805 * p.2.2,
   0.2126 * p.1 + 0.7152 * p.2.1 + 0.0722 * p.2.2,
   0.0193 * p.1 + 0.1192 * p.2.1 + 0.9505 * p.2.2)

/-- Modelled from the spec: CIE XYZ back to linear-light RGB, the exact
rational inverse of the forward D65 matrix (the reverse path exactly
inverts each stage). -/
noncomputable def linearOfXyz (p : ℝ × ℝ × ℝ) : ℝ × ℝ × ℝ :=
  ((28154000 / 8687829) * p.1 + (-13355000 / 8687829) * p.2.1 + (-1444000 / 2895943) * p.2.2,
   (-418089250 / 431495507) * p.1 + (1618760625 / 862991014) * p.2.1
     + (17914625 / 431495507) * p.2.2,
   (484000 / 8687829) * p.1 + (-1772500 / 8687829) * p.2.1 + (3061000 / 2895943) * p.2.2)

/-- Modelled from the spec: the CIELAB transfer — cube root with a linear
segment near zero (δ = 6/29). -/
noncomputable def labF (t : ℝ) : ℝ :=
  if (6 / 29 : ℝ) ^ 3 < t then t ^ ((1 : ℝ) / 3)
  else t / (3 * (6 / 29) ^ 2) + 4 / 29

/-- Modelled from the spec: the exact inverse of the CIELAB transfer. -/
noncomputable def labFinv (s : ℝ) : ℝ :=
  if (6 / 29 : ℝ) < s then s ^ 3 else 3 * (6 / 29) ^ 2 * (s - 4 / 29)

/-- Modelled from the spec: XYZ to CIELAB against the D65 white point
(Xn = 0.95047, Yn = 1, Zn = 1.08883). -/
noncomputable def labOfXyz (p : ℝ × ℝ × ℝ) : ℝ × ℝ × ℝ :=
  (116 * labF p.2.1 - 16,
   500 * (labF (p.1 / 0.95047) - labF p.2.1),
   200 * (labF p.2.1 - labF (p.2.2 / 1.08883)))

/-- Modelled from the spec: CIELAB back to XYZ, exactly inverting each
stage. -/
noncomputable def xyzOfLab (lab : ℝ × ℝ × ℝ) : ℝ × ℝ × ℝ :=
  (0.95047 * labFinv ((lab.1 + 16) / 116 + lab.2.1 / 500),
   labFinv ((lab.1 + 16) / 116),
   1.08883 * labFinv ((lab.1 + 16) / 116 - lab.2.2 / 200))

/-- An HCL (CIELCh) color: lightness, chroma, hue in degrees. -/
structure HCL where
  l : ℝ
  c : ℝ
  h : ℝ

/-- An OKLCH color: lightness, chroma, hue in degrees. -/
structure OKLCH where
  l : ℝ
  c : ℝ
  h : ℝ

/-- Modelled from the spec: `rgbToHcl` — RGB → linear light → XYZ (D65) →
CIELAB → cylindrical LCh, hue normalized into [0,360) (§4.1). -/
noncomputable def rgbToHcl (rgb : RGB) : HCL :=
  let lab := labOfXyz (xyzOfLinear
    (srgbToLinear ((clampByte rgb.r : ℝ) / 255),
     srgbToLinear ((clampByte rgb.g : ℝ) / 255),
     srgbToLinear ((clampByte rgb.b : ℝ) / 255)))
  ⟨lab.1, polarChroma lab.2.1 lab.2.2, polarHue lab.2.1 lab.2.2⟩

/-- Modelled from the spec: `hclToRgb` — exactly inverts each stage of
`rgbToHcl`, then clamps component-wise to [0,255] and rounds (§4.1
clamp-on-reverse policy). -/
noncomputable def hclToRgb (hcl : HCL) : RGB :=
  let lin := linearOfXyz (xyzOfLab
    (hcl.l, hcl.c * Real.cos (hcl.h * Real.pi / 180),
     hcl.c * Real.sin (hcl.h * Real.pi / 180)))
  ⟨realToByte (255 * linearToSrgb lin.1),
   realToByte (255 * linearToSrgb lin.2.1),
   realToByte (255 * linearToSrgb lin.2.2)⟩

/-- Modelled from the spec: linear-light RGB to the OKLab LMS cone space,
the published OKLab linear transform (§4.1 rgbToOklch route). -/
noncomputable def lmsOfLinear (p : ℝ × ℝ × ℝ) : ℝ × ℝ × ℝ :=
  (0.4122214708 * p.1 + 0.5363325363 * p.2.1 + 0.0514459929 * p.2.2,
   0.2119034982 * p.1 + 0.6806995451 * p.2.1 + 0.1073969566 * p.2.2,
   0.0883024619 * p.1 + 0.2817188376 * p.2.1 + 0.6299787005 * p.2.2)

/-- Modelled from the spec: LMS back to linear-light RGB, the exact
rational inverse of the published OKLab linear transform. -/
noncomputable def linearOfLms (p : ℝ × ℝ × ℝ) : ℝ × ℝ × ℝ :=
  ((398570469077909494390000000000 / 97766918335001940963517722511) * p.1
     + (-323384768935177225110000000000 / 97766918335001940963517722511) * p.2.1
     + (22581218159931194790000000000 / 97766918335001940963517722511) * p.2.2,
   (-124011274759092635560000000000 / 97766918335001940963517722511) * p.1
     + (255147938664822774890000000000 / 97766918335001940963517722511) * p.2.1
     + (-33369745545213404500000000000 / 97766918335001940963517722511) * p.2.2,
   (-410238450262389370000000000 / 97766918335001940963517722511) * p.1
     + (-68771070235177225110000000000 / 97766918335001940963517722511) * p.2.1
     + (166948227013564448420000000000 / 97766918335001940963517722511) * p.2.2)

/-- The OKLab cube-root nonlinearity. -/
noncomputable def okCbrt (t : ℝ) : ℝ := t ^ ((1 : ℝ) / 3)

/-- Modelled from the spec: cube-rooted LMS to OKLab, the published second
linear transform. -/
noncomputable def oklabOfLms3 (p : ℝ × ℝ × ℝ) : ℝ × ℝ × ℝ :=
  (0.2104542553 * p.1 + 0.7936177850 * p.2.1 + (-0.0040720468) * p.2.2,
   1.9779984951 * p.1 + (-2.4285922050) * p.2.1 + 0.4505937099 * p.2.2,
   0.0259040371 * p.1 + 0.7827717662 * p.2.1 + (-0.8086757660) * p.2.2)

/-- Modelled from the spec: OKLab back to cube-rooted LMS, the exact
rational inverse of the second linear transform. -/
noncomputable def lms3OfOklab (p : ℝ × ℝ × ℝ) : ℝ × ℝ × ℝ :=
  ((3356732557381188759625000000 / 3356732562582379354167684689) * p.1
     + (3991199918315082824000000000 / 10070197687747138062503054067) * p.2.1
     + (724395501810198703125000000 / 3356732562582379354167684689) * p.2.2,
   (3356732592396074966437500000 / 3356732562582379354167684689) * p.1
     + (-1063023585383168272000000000 / 10070197687747138062503054067) * p.2.1
     + (-214341387713011475312500000 / 3356732562582379354167684689) * p.2.2,
   (3356732746103041356500000000 / 3356732562582379354167684689) * p.1
     + (-300374467874222682000000000 / 3356732562582379354167684689) * p.2.1
     + (-4335171559052615187500000000 / 3356732562582379354167684689) * p.2.2)

/-- Modelled from the spec: `rgbToOklch` — RGB → linear light → OKLab (LMS,
cube root, linear map) → cylindrical form, hue normalized (§4.1). -/
noncomputable def rgbToOklch (rgb : RGB) : OKLCH :=
  let lms := lmsOfLinear
    (srgbToLinear ((clampByte rgb.r : ℝ) / 255),
     srgbToLinear ((clampByte rgb.g : ℝ) / 255),
     srgbToLinear ((clampByte rgb.b : ℝ) / 255))
  let lab := oklabOfLms3 (okCbrt lms.1, okCbrt lms.2.1, okCbrt lms.2.2)
  ⟨lab.1, polarChroma lab.2.1 lab.2.2, polarHue lab.2.1 lab.2.2⟩

/-- Modelled from the spec: `oklchToRgb` — exactly inverts each stage of
`rgbToOklch`, then clamps to [0,255] and rounds (§4.1 clamp-on-reverse
policy). -/
noncomputable def oklchToRgb (lch : OKLCH) : RGB :=
  let lms3 := lms3OfOklab
    (lch.l, lch.c * Real.cos (lch.h * Real.pi / 180),
     lch.c * Real.sin (lch.h * Real.pi / 180))
  let lin := linearOfLms (lms3.1 ^ 3, lms3.2.1 ^ 3, lms3.2.2 ^ 3)
  ⟨realToByte (255 * linearToSrgb lin.1),
   realToByte (255 * linearToSrgb lin.2.1),
   realToByte (255 * linearToSrgb lin.2.2)⟩

/- ========================= Helper lemmas ========================= -/

lemma hexVal_toHexChar : ∀ k, k < 16 → hexVal (toHexChar k) = k := by decide

lemma isHexDig_toHexChar : ∀ k, k < 16 → isHexDig (toHexChar k) = true := by decide

lemma lowerHex_toHexChar :
    ∀ k, k < 16 → (('0' ≤ toHexChar k && toHexChar k ≤ '9') ||
      ('a' ≤ toHexChar k && toHexChar k ≤ 'f')) = true := by decide

lemma clampByte_le (x : Int) : clampByte x ≤ 255 := by
  unfold clampByte; split_ifs <;> omega

lemma clampByte_of_mem (x : Int) (h0 : 0 ≤ x) (h1 : x ≤ 255) :
    (clampByte x : Int) = x := by
  unfold clampByte; split_ifs <;> omega

lemma clampByte_clampChannel (x : Int) : clampByte (clampChannel x) = clampByte x := by
  unfold clampByte clampChannel
  split_ifs <;> omega

lemma toList_mk (l : List Char) : (String.mk l).toList = l := rfl

lemma validHex_iff (cs : List Char) :
    validHexBody cs = true ↔
      ((cs.length = 3 ∨ cs.length = 6) ∧ ∀ c ∈ cs, isHexDig c = true) := by
  simp [validHexBody, List.all_eq_true]

lemma roundHalf_intCast (n : Int) : roundHalf (n : ℚ) = n := by
  unfold roundHalf
  split_ifs with h
  · rw [Int.floor_int_add]
    norm_num
  · rw [show (-(n : ℚ) + 1 / 2) = ((-n : ℤ) : ℚ) + (1 / 2 : ℚ) by push_cast; ring]
    rw [Int.floor_int_add]
    norm_num

lemma normalizeHue_eq_self (x : ℚ) (h0 : 0 ≤ x) (h1 : x < 360) : normalizeHue x = x := by
  unfold normalizeHue
  have hf : ⌊x / 360⌋ = 0 := by
    rw [Int.floor_eq_zero_iff, Set.mem_Ico]
    constructor
    · positivity
    · rw [div_lt_one (by norm_num : (0:ℚ) < 360)]
      exact h1
  rw [hf]
  push_cast
  ring

lemma normalizeHue_neg (x : ℚ) (h0 : -360 ≤ x) (h1 : x < 0) :
    normalizeHue x = x + 360 := by
  unfold normalizeHue
  have hf : ⌊x / 360⌋ = -1 := by
    rw [Int.floor_eq_iff]
    constructor
    · push_cast
      rw [le_div_iff₀ (by norm_num : (0:ℚ) < 360)]
      linarith
    · push_cast
      rw [div_lt_iff₀ (by norm_num : (0:ℚ) < 360)]
      linarith
  rw [hf]
  push_cast
  ring

lemma floor_eq_of_mem (q : ℚ) (n : ℤ) (h0 : (n : ℚ) ≤ q) (h1 : q < (n : ℚ) + 1) :
    ⌊q⌋ = n := by
  rw [Int.floor_eq_iff]
  exact ⟨h0, by linarith⟩

lemma hslToRgb_eval0 (H S L : ℚ) (hS0 : 0 ≤ S) (hS1 : S ≤ 100) (hL0 : 0 ≤ L)
    (hL1 : L ≤ 100) (hH0 : 0 ≤ H) (hH1 : H < 60) :
    hslToRgb ⟨H, S, L⟩ = Except.ok
      ⟨roundHalf (255 * ((1 - |2 * (L / 100) - 1|) * (S / 100)
          + (L / 100 - (1 - |2 * (L / 100) - 1|) * (S / 100) / 2))),
       roundHalf (255 * ((1 - |2 * (L / 100) - 1|) * (S / 100) * (H / 60)
          + (L / 100 - (1 - |2 * (L / 100) - 1|) * (S / 100) / 2))),
       roundHalf (255 * (0 + (L / 100 - (1 - |2 * (L / 100) - 1|) * (S / 100) / 2)))⟩ := by
  have hnorm : normalizeHue H = H := normalizeHue_eq_self H hH0 (by linarith)
  have hfloor : ⌊H / 60⌋ = 0 := floor_eq_of_mem _ 0 (by positivity) (by
    push_cast
    rw [div_lt_iff₀ (by norm_num : (0:ℚ) < 60)]
    linarith)
  have hfloor2 : ⌊H / 60 / 2⌋ = 0 := floor_eq_of_mem _ 0 (by positivity) (by
    push_cast
    rw [div_lt_iff₀ (by norm_num : (0:ℚ) < 2)]
    rw [div_lt_iff₀ (by norm_num : (0:ℚ) < 60)]
    linarith)
  simp only [hslToRgb]
  rw [if_pos ⟨hS0, hS1, hL0, hL1⟩]
  rw [hnorm, hfloor, hfloor2]
  norm_num
  rw [abs_of_nonpos (show H / 60 - 1 ≤ 0 by
    rw [sub_nonpos, div_le_one (by norm_num : (0:ℚ) < 60)]
    linarith)]
  congr 1
  ring

lemma hslToRgb_eval1 (H S L : ℚ) (hS0 : 0 ≤ S) (hS1 : S ≤ 100) (hL0 : 0 ≤ L)
    (hL1 : L ≤ 100) (hH0 : 60 ≤ H) (hH1 : H < 120) :
    hslToRgb ⟨H, S, L⟩ = Except.ok
      ⟨roundHalf (255 * ((1 - |2 * (L / 100) - 1|) * (S / 100) * (2 - H / 60) + (L / 100 - (1 - |2 * (L / 100) - 1|) * (S / 100) / 2))),
       roundHalf (255 * ((1 - |2 * (L / 100) - 1|) * (S / 100) + (L / 100 - (1 - |2 * (L / 100) - 1|) * (S / 100) / 2))),
       roundHalf (255 * (0 + (L / 100 - (1 - |2 * (L / 100) - 1|) * (S / 100) / 2)))⟩ := by
  have hnorm : normalizeHue H = H := normalizeHue_eq_self H (by linarith) (by linarith)
  have hfloor : ⌊H / 60⌋ = 1 := floor_eq_of_mem _ 1 (by
      push_cast
      rw [le_div_iff₀ (by norm_num : (0:ℚ) < 60)]
      linarith) (by
      push_cast
      rw [div_lt_iff₀ (by norm_num : (0:ℚ) < 60)]
      linarith)
  have hfloor2 : ⌊H / 60 / 2⌋ = 0 := floor_eq_of_mem _ 0 (by
      push_cast
      rw [le_div_iff₀ (by norm_num : (0:ℚ) < 2), le_div_iff₀ (by norm_num : (0:ℚ) < 60)]
      linarith) (by
      push_cast
      rw [div_lt_iff₀ (by norm_num : (0:ℚ) < 2), div_lt_iff₀ (by norm_num : (0:ℚ) < 60)]
      linarith)
  simp only [hslToRgb]
  rw [if_pos ⟨hS0, hS1, hL0, hL1⟩]
  rw [hnorm, hfloor, hfloor2]
  norm_num
  rw [abs_of_nonneg (show (0:ℚ) ≤ H / 60 - 1 by linarith)]
  congr 1
  ring

lemma hslToRgb_eval2 (H S L : ℚ) (hS0 : 0 ≤ S) (hS1 : S ≤ 100) (hL0 : 0 ≤ L)
    (hL1 : L ≤ 100) (hH0 : 120 ≤ H) (hH1 : H < 180) :
    hslToRgb ⟨H, S, L⟩ = Except.ok
      ⟨roundHalf (255 * (0 + (L / 100 - (1 - |2 * (L / 100) - 1|) * (S / 100) / 2))),
       roundHalf (255 * ((1 - |2 * (L / 100) - 1|) * (S / 100) + (L / 100 - (1 - |2 * (L / 100) - 1|) * (S / 100) / 2))),
       roundHalf (255 * ((1 - |2 * (L / 100) - 1|) * (S / 100) * (H / 60 - 2) + (L / 100 - (1 - |2 * (L / 100) - 1|) * (S / 100) / 2)))⟩ := by
  have hnorm : normalizeHue H = H := normalizeHue_eq_self H (by linarith) (by linarith)
  have hfloor : ⌊H / 60⌋ = 2 := floor_eq_of_mem _ 2 (by
      push_cast
      rw [le_div_iff₀ (by norm_num : (0:ℚ) < 60)]
      linarith) (by
      push_cast
      rw [div_lt_iff₀ (by norm_num : (0:ℚ) < 60)]
      linarith)
  have hfloor2 : ⌊H / 60 / 2⌋ = 1 := floor_eq_of_mem _ 1 (by
      push_cast
      rw [le_div_iff₀ (by norm_num : (0:ℚ) < 2), le_div_iff₀ (by norm_num : (0:ℚ) < 60)]
      linarith) (by
      push_cast
      rw [div_lt_iff₀ (by norm_num : (0:ℚ) < 2), div_lt_iff₀ (by norm_num : (0:ℚ) < 60)]
      linarith)
  simp only [hslToRgb]
  rw [if_pos ⟨hS0, hS1, hL0, hL1⟩]
  rw [hnorm, hfloor, hfloor2]
  norm_num
  rw [abs_of_nonpos (show H / 60 - 2 - 1 ≤ 0 by linarith)]
  congr 1
  ring

lemma hslToRgb_eval3 (H S L : ℚ) (hS0 : 0 ≤ S) (hS1 : S ≤ 100) (hL0 : 0 ≤ L)
    (hL1 : L ≤ 100) (hH0 : 180 ≤ H) (hH1 : H < 240) :
    hslToRgb ⟨H, S, L⟩ = Except.ok
      ⟨roundHalf (255 * (0 + (L / 100 - (1 - |2 * (L / 100) - 1|) * (S / 100) / 2))),
       roundHalf (255 * ((1 - |2 * (L / 100) - 1|) * (S / 100) * (4 - H / 60) + (L / 100 - (1 - |2 * (L / 100) - 1|) * (S / 100) / 2))),
       roundHalf (255 * ((1 - |2 * (L / 100) - 1|) * (S / 100) + (L / 100 - (1 - |2 * (L / 100) - 1|) * (S / 100) / 2)))⟩ := by
  have hnorm : normalizeHue H = H := normalizeHue_eq_self H (by linarith) (by linarith)
  have hfloor : ⌊H / 60⌋ = 3 := floor_eq_of_mem _ 3 (by
      push_cast
      rw [le_div_iff₀ (by norm_num : (0:ℚ) < 60)]
      linarith) (by
      push_cast
      rw [div_lt_iff₀ (by norm_num : (0:ℚ) < 60)]
      linarith)
  have hfloor2 : ⌊H / 60 / 2⌋ = 1 := floor_eq_of_mem _ 1 (by
      push_cast
      rw [le_div_iff₀ (by norm_num : (0:ℚ) < 2), le_div_iff₀ (by norm_num : (0:ℚ) < 60)]
      linarith) (by
      push_cast
      rw [div_lt_iff₀ (by norm_num : (0:ℚ) < 2), div_lt_iff₀ (by norm_num : (0:ℚ) < 60)]
      linarith)
  simp only [hslToRgb]
  rw [if_pos ⟨hS0, hS1, hL0, hL1⟩]
  rw [hnorm, hfloor, hfloor2]
  norm_num
  rw [abs_of_nonneg (show (0:ℚ) ≤ H / 60 - 2 - 1 by linarith)]
  congr 1
  ring

lemma hslToRgb_eval4 (H S L : ℚ) (hS0 : 0 ≤ S) (hS1 : S ≤ 100) (hL0 : 0 ≤ L)
    (hL1 : L ≤ 100) (hH0 : 240 ≤ H) (hH1 : H < 300) :
    hslToRgb ⟨H, S, L⟩ = Except.ok
      ⟨roundHalf (255 * ((1 - |2 * (L / 100) - 1|) * (S / 100) * (H / 60 - 4) + (L / 100 - (1 - |2 * (L / 100) - 1|) * (S / 100) / 2))),
       roundHalf (255 * (0 + (L / 100 - (1 - |2 * (L / 100) - 1|) * (S / 100) / 2))),
       roundHalf (255 * ((1 - |2 * (L / 100) - 1|) * (S / 100) + (L / 100 - (1 - |2 * (L / 100) - 1|) * (S / 100) / 2)))⟩ := by
  have hnorm : normalizeHue H = H := normalizeHue_eq_self H (by linarith) (by linarith)
  have hfloor : ⌊H / 60⌋ = 4 := floor_eq_of_mem _ 4 (by
      push_cast
      rw [le_div_iff₀ (by norm_num : (0:ℚ) < 60)]
      linarith) (by
      push_cast
      rw [div_lt_iff₀ (by norm_num : (0:ℚ) < 60)]
      linarith)
  have hfloor2 : ⌊H / 60 / 2⌋ = 2 := floor_eq_of_mem _ 2 (by
      push_cast
      rw [le_div_iff₀ (by norm_num : (0:ℚ) < 2), le_div_iff₀ (by norm_num : (0:ℚ) < 60)]
      linarith) (by
      push_cast
      rw [div_lt_iff₀ (by norm_num : (0:ℚ) < 2), div_lt_iff₀ (by norm_num : (0:ℚ) < 60)]
      linarith)
  simp only [hslToRgb]
  rw [if_pos ⟨hS0, hS1, hL0, hL1⟩]
  rw [hnorm, hfloor, hfloor2]
  norm_num
  rw [abs_of_nonpos (show H / 60 - 4 - 1 ≤ 0 by linarith)]
  congr 1
  ring

lemma hslToRgb_eval5 (H S L : ℚ) (hS0 : 0 ≤ S) (hS1 : S ≤ 100) (hL0 : 0 ≤ L)
    (hL1 : L ≤ 100) (hH0 : 300 ≤ H) (hH1 : H < 360) :
    hslToRgb ⟨H, S, L⟩ = Except.ok
      ⟨roundHalf (255 * ((1 - |2 * (L / 100) - 1|) * (S / 100) + (L / 100 - (1 - |2 * (L / 100) - 1|) * (S / 100) / 2))),
       roundHalf (255 * (0 + (L / 100 - (1 - |2 * (L / 100) - 1|) * (S / 100) / 2))),
       roundHalf (255 * ((1 - |2 * (L / 100) - 1|) * (S / 100) * (6 - H / 60) + (L / 100 - (1 - |2 * (L / 100) - 1|) * (S / 100) / 2)))⟩ := by
  have hnorm : normalizeHue H = H := normalizeHue_eq_self H (by linarith) (by linarith)
  have hfloor : ⌊H / 60⌋ = 5 := floor_eq_of_mem _ 5 (by
      push_cast
      rw [le_div_iff₀ (by norm_num : (0:ℚ) < 60)]
      linarith) (by
      push_cast
      rw [div_lt_iff₀ (by norm_num : (0:ℚ) < 60)]
      linarith)
  have hfloor2 : ⌊H / 60 / 2⌋ = 2 := floor_eq_of_mem _ 2 (by
      push_cast
      rw [le_div_iff₀ (by norm_num : (0:ℚ) < 2), le_div_iff₀ (by norm_num : (0:ℚ) < 60)]
      linarith) (by
      push_cast
      rw [div_lt_iff₀ (by norm_num : (0:ℚ) < 2), div_lt_iff₀ (by norm_num : (0:ℚ) < 60)]
      linarith)
  simp only [hslToRgb]
  rw [if_pos ⟨hS0, hS1, hL0, hL1⟩]
  rw [hnorm, hfloor, hfloor2]
  norm_num
  rw [abs_of_nonneg (show (0:ℚ) ≤ H / 60 - 4 - 1 by linarith)]
  congr 1
  ring

lemma cmyk_round_exact (rgb : RGB) (h0r : 0 ≤ rgb.r) (h1r : rgb.r ≤ 255)
    (h0g : 0 ≤ rgb.g) (h1g : rgb.g ≤ 255) (h0b : 0 ≤ rgb.b) (h1b : rgb.b ≤ 255) :
    cmykToRgb (rgbToCmyk rgb) = Except.ok rgb := by
  obtain ⟨r, g, b⟩ := rgb
  simp only at h0r h1r h0g h1g h0b h1b
  have hcr : (clampByte r : Int) = r := clampByte_of_mem r h0r h1r
  have hcg : (clampByte g : Int) = g := clampByte_of_mem g h0g h1g
  have hcb : (clampByte b : Int) = b := clampByte_of_mem b h0b h1b
  set x : ℚ := (clampByte r : ℚ) / 255 with hx
  set y : ℚ := (clampByte g : ℚ) / 255 with hy
  set z : ℚ := (clampByte b : ℚ) / 255 with hz
  have hx0 : 0 ≤ x := by positivity
  have hy0 : 0 ≤ y := by positivity
  have hz0 : 0 ≤ z := by positivity
  have hx1 : x ≤ 1 := by
    rw [hx, div_le_one (by norm_num)]
    exact_mod_cast clampByte_le r
  have hy1 : y ≤ 1 := by
    rw [hy, div_le_one (by norm_num)]
    exact_mod_cast clampByte_le g
  have hz1 : z ≤ 1 := by
    rw [hz, div_le_one (by norm_num)]
    exact_mod_cast clampByte_le b
  have h255x : (255 : ℚ) * x = ((clampByte r : Int) : ℚ) := by
    rw [hx]; push_cast; ring
  have h255y : (255 : ℚ) * y = ((clampByte g : Int) : ℚ) := by
    rw [hy]; push_cast; ring
  have h255z : (255 : ℚ) * z = ((clampByte b : Int) : ℚ) := by
    rw [hz]; push_cast; ring
  show cmykToRgb (rgbToCmyk ⟨r, g, b⟩) = Except.ok ⟨r, g, b⟩
  rw [show rgbToCmyk ⟨r, g, b⟩ =
      (if 1 - max x (max y z) = 1 then ⟨0, 0, 0, 100⟩ else
        ⟨100 * (1 - x - (1 - max x (max y z))) / (1 - (1 - max x (max y z))),
         100 * (1 - y - (1 - max x (max y z))) / (1 - (1 - max x (max y z))),
         100 * (1 - z - (1 - max x (max y z))) / (1 - (1 - max x (max y z))),
         100 * (1 - max x (max y z))⟩ : CMYK) from rfl]
  by_cases hk : 1 - max x (max y z) = 1
  · rw [if_pos hk]
    have hmax0 : max x (max y z) = 0 := by linarith
    have hx00 : x = 0 := le_antisymm (by
      have := le_max_left x (max y z); linarith) hx0
    have hy00 : y = 0 := le_antisymm (by
      have h1 := le_max_left y z
      have h2 := le_max_right x (max y z); linarith) hy0
    have hz00 : z = 0 := le_antisymm (by
      have h1 := le_max_right y z
      have h2 := le_max_right x (max y z); linarith) hz0
    have hr0 : (clampByte r : Int) = 0 := by
      have : (255 : ℚ) * x = 0 := by rw [hx00]; ring
      rw [h255x] at this; exact_mod_cast this
    have hg0 : (clampByte g : Int) = 0 := by
      have : (255 : ℚ) * y = 0 := by rw [hy00]; ring
      rw [h255y] at this; exact_mod_cast this
    have hb0 : (clampByte b : Int) = 0 := by
      have : (255 : ℚ) * z = 0 := by rw [hz00]; ring
      rw [h255z] at this; exact_mod_cast this
    unfold cmykToRgb
    rw [if_pos (by norm_num)]
    have : roundHalf (255 * (1 - (0:ℚ) / 100) * (1 - (100:ℚ) / 100)) = 0 := by
      norm_num [roundHalf]
    simp only [this]
    rw [← hcr, ← hcg, ← hcb, hr0, hg0, hb0]
  · rw [if_neg hk]
    set M : ℚ := max x (max y z) with hM
    have hM0 : 0 < M := by
      rcases lt_or_eq_of_le (le_trans hx0 (le_max_left x (max y z))) with h | h
      · exact h
      · exact absurd (by rw [hM, ← h]; norm_num) hk
    have hMx : x ≤ M := le_max_left _ _
    have hMy : y ≤ M := le_trans (le_max_left y z) (le_max_right _ _)
    have hMz : z ≤ M := le_trans (le_max_right y z) (le_max_right _ _)
    have hM1 : M ≤ 1 := by
      rw [hM]; exact max_le hx1 (max_le hy1 hz1)
    unfold cmykToRgb
    rw [if_pos]
    · have key : ∀ w : ℚ, 0 ≤ w → w ≤ M →
          255 * (1 - 100 * (1 - w - (1 - M)) / (1 - (1 - M)) / 100) * (1 - 100 * (1 - M) / 100)
            = 255 * w := by
        intro w hw0 hwM
        have hMne : M ≠ 0 := ne_of_gt hM0
        field_simp
        ring
      simp only [key x hx0 hMx, key y hy0 hMy, key z hz0 hMz]
      rw [h255x, h255y, h255z, roundHalf_intCast, roundHalf_intCast, roundHalf_intCast,
        hcr, hcg, hcb]
    · have hMpos : (0 : ℚ) < 1 - (1 - M) := by linarith
      refine ⟨?_, ?_, ?_, ?_, ?_, ?_, ?_, ?_⟩
      · exact div_nonneg (by linarith) (by linarith)
      · rw [div_le_iff₀ hMpos]; linarith
      · exact div_nonneg (by linarith) (by linarith)
      · rw [div_le_iff₀ hMpos]; linarith
      · exact div_nonneg (by linarith) (by linarith)
      · rw [div_le_iff₀ hMpos]; linarith
      · linarith
      · linarith

lemma srgbToLinear_nonneg (u : ℝ) (hu : 0 ≤ u) : 0 ≤ srgbToLinear u := by
  unfold srgbToLinear
  split_ifs
  · positivity
  · exact Real.rpow_nonneg (by positivity) _

lemma t11_pow_key : (0.04045 / 12.92 : ℝ) < ((11 / 255 + 0.055) / 1.055) ^ (2.4 : ℝ) := by
  have ht : ((11 / 255 + 0.055) / 1.055 : ℝ) = 1001 / 10761 := by norm_num
  rw [ht, show (2.4 : ℝ) = (12 : ℝ) / 5 by norm_num]
  have hx0 : (0 : ℝ) ≤ (1001 / 10761 : ℝ) ^ ((12 : ℝ) / 5) :=
    Real.rpow_nonneg (by norm_num) _
  refine lt_of_pow_lt_pow_left₀ 5 hx0 ?_
  have hp5 : (((1001 / 10761 : ℝ)) ^ ((12 : ℝ) / 5)) ^ (5 : ℕ)
      = (1001 / 10761 : ℝ) ^ (12 : ℕ) := by
    rw [← Real.rpow_natCast (((1001 / 10761 : ℝ)) ^ ((12 : ℝ) / 5)) 5,
      ← Real.rpow_mul (by norm_num)]
    rw [show ((12 : ℝ) / 5) * (5 : ℕ) = ((12 : ℕ) : ℝ) by norm_num]
    rw [Real.rpow_natCast]
  rw [hp5]
  norm_num

lemma linearToSrgb_srgbToLinear (u : ℝ) (h : u ≤ 0.04045 ∨ (11 / 255 : ℝ) ≤ u) :
    linearToSrgb (srgbToLinear u) = u := by
  unfold srgbToLinear linearToSrgb
  by_cases hu : u ≤ 0.04045
  · rw [if_pos hu, if_pos (by linarith [(div_le_div_iff_of_pos_right
      (show (0:ℝ) < 12.92 by norm_num)).mpr hu] : u / 12.92 ≤ 0.04045 / 12.92)]
    ring
  · have h11 : (11 / 255 : ℝ) ≤ u := h.resolve_left hu
    rw [if_neg hu]
    have ht0 : (0 : ℝ) ≤ (u + 0.055) / 1.055 := by
      apply div_nonneg <;> norm_num
      linarith
    have hmono : ((11 / 255 + 0.055) / 1.055 : ℝ) ^ (2.4 : ℝ)
        ≤ ((u + 0.055) / 1.055) ^ (2.4 : ℝ) := by
      apply Real.rpow_le_rpow (by norm_num)
      · apply div_le_div_of_nonneg_right ?_ (by norm_num)
        linarith
      · norm_num
    have hbr : ¬ ((u + 0.055) / 1.055 : ℝ) ^ (2.4 : ℝ) ≤ 0.04045 / 12.92 := by
      push_neg
      calc (0.04045 / 12.92 : ℝ) < ((11 / 255 + 0.055) / 1.055) ^ (2.4 : ℝ) := t11_pow_key
        _ ≤ _ := hmono
    rw [if_neg hbr]
    rw [← Real.rpow_mul ht0, show (2.4 : ℝ) * (1 / 2.4) = 1 by norm_num, Real.rpow_one]
    ring

lemma cos_deg_normalizeHueR (θ : ℝ) :
    Real.cos (normalizeHueR (180 / Real.pi * θ) * Real.pi / 180) = Real.cos θ := by
  unfold normalizeHueR
  have hπ : Real.pi ≠ 0 := Real.pi_ne_zero
  have key : (180 / Real.pi * θ - 360 * ⌊180 / Real.pi * θ / 360⌋) * Real.pi / 180
      = θ - (⌊180 / Real.pi * θ / 360⌋ : ℤ) * (2 * Real.pi) := by
    field_simp
    ring
  rw [key, Real.cos_sub_int_mul_two_pi]

lemma sin_deg_normalizeHueR (θ : ℝ) :
    Real.sin (normalizeHueR (180 / Real.pi * θ) * Real.pi / 180) = Real.sin θ := by
  unfold normalizeHueR
  have hπ : Real.pi ≠ 0 := Real.pi_ne_zero
  have key : (180 / Real.pi * θ - 360 * ⌊180 / Real.pi * θ / 360⌋) * Real.pi / 180
      = θ - (⌊180 / Real.pi * θ / 360⌋ : ℤ) * (2 * Real.pi) := by
    field_simp
    ring
  rw [key, Real.sin_sub_int_mul_two_pi]

lemma polarChroma_eq_abs (a b : ℝ) : polarChroma a b = Complex.abs ⟨a, b⟩ := by
  rw [polarChroma, Complex.abs_apply, Complex.normSq_mk]
  ring_nf

lemma polar_cos (a b : ℝ) :
    polarChroma a b * Real.cos (polarHue a b * Real.pi / 180) = a := by
  rw [polarHue, cos_deg_normalizeHueR, polarChroma_eq_abs]
  by_cases hz : (⟨a, b⟩ : ℂ) = 0
  · have ha : a = 0 := congrArg Complex.re hz
    rw [hz, ha]
    simp
  · rw [Complex.cos_arg hz]
    have habs : Complex.abs ⟨a, b⟩ ≠ 0 := Complex.abs.ne_zero hz
    field_simp

lemma polar_sin (a b : ℝ) :
    polarChroma a b * Real.sin (polarHue a b * Real.pi / 180) = b := by
  rw [polarHue, sin_deg_normalizeHueR, polarChroma_eq_abs]
  by_cases hz : (⟨a, b⟩ : ℂ) = 0
  · have hb : b = 0 := congrArg Complex.im hz
    rw [hz, hb]
    simp
  · rw [Complex.sin_arg]
    have habs : Complex.abs ⟨a, b⟩ ≠ 0 := Complex.abs.ne_zero hz
    field_simp

lemma roundHalfR_intCast (n : Int) : roundHalfR (n : ℝ) = n := by
  unfold roundHalfR
  split_ifs with h
  · rw [Int.floor_int_add]
    norm_num
  · rw [show (-(n : ℝ) + 1 / 2) = ((-n : ℤ) : ℝ) + (1 / 2 : ℝ) by push_cast; ring]
    rw [Int.floor_int_add]
    norm_num

lemma realToByte_intCast (n : Int) (h0 : 0 ≤ n) (h1 : n ≤ 255) :
    realToByte (n : ℝ) = n := by
  unfold realToByte
  rw [if_neg (by exact_mod_cast not_lt.mpr h0),
    if_neg (by exact_mod_cast not_lt.mpr h1), roundHalfR_intCast]

lemma linearOfXyz_xyzOfLinear (p : ℝ × ℝ × ℝ) : linearOfXyz (xyzOfLinear p) = p := by
  obtain ⟨r, g, b⟩ := p
  simp only [xyzOfLinear, linearOfXyz, Prod.mk.injEq]
  refine ⟨?_, ?_, ?_⟩ <;> ring

lemma labFinv_labF (t : ℝ) (ht : 0 ≤ t) : labFinv (labF t) = t := by
  unfold labF labFinv
  by_cases h : (6 / 29 : ℝ) ^ 3 < t
  · rw [if_pos h]
    have hbr : (6 / 29 : ℝ) < t ^ ((1 : ℝ) / 3) := by
      have h1 : ((6 / 29 : ℝ) ^ (3 : ℕ)) ^ ((1 : ℝ) / 3) < t ^ ((1 : ℝ) / 3) :=
        Real.rpow_lt_rpow (by positivity) (by exact_mod_cast h) (by norm_num)
      have h2 : ((6 / 29 : ℝ) ^ (3 : ℕ)) ^ ((1 : ℝ) / 3) = 6 / 29 := by
        rw [← Real.rpow_natCast (6 / 29 : ℝ) 3, ← Real.rpow_mul (by norm_num)]
        norm_num
      rwa [h2] at h1
    rw [if_pos hbr]
    rw [← Real.rpow_natCast (t ^ ((1 : ℝ) / 3)) 3, ← Real.rpow_mul ht]
    norm_num
  · rw [if_neg h]
    push_neg at h
    have hbr : ¬ (6 / 29 : ℝ) < t / (3 * (6 / 29) ^ 2) + 4 / 29 := by
      push_neg
      have : t / (3 * (6 / 29 : ℝ) ^ 2) ≤ (6 / 29 : ℝ) ^ 3 / (3 * (6 / 29) ^ 2) :=
        div_le_div_of_nonneg_right h (by norm_num)
      calc t / (3 * (6 / 29 : ℝ) ^ 2) + 4 / 29
          ≤ (6 / 29 : ℝ) ^ 3 / (3 * (6 / 29) ^ 2) + 4 / 29 := by linarith
        _ = 6 / 29 := by norm_num
    rw [if_neg hbr]
    field_simp
    ring

lemma xyzOfLab_labOfXyz (p : ℝ × ℝ × ℝ) (h1 : 0 ≤ p.1) (h2 : 0 ≤ p.2.1)
    (h3 : 0 ≤ p.2.2) : xyzOfLab (labOfXyz p) = p := by
  obtain ⟨X, Y, Z⟩ := p
  simp only at h1 h2 h3
  simp only [labOfXyz, xyzOfLab, Prod.mk.injEq]
  have ey : (116 * labF Y - 16 + 16) / 116 = labF Y := by ring
  refine ⟨?_, ?_, ?_⟩
  · rw [show (116 * labF Y - 16 + 16) / 116 + 500 * (labF (X / 0.95047) - labF Y) / 500
        = labF (X / 0.95047) by ring]
    rw [labFinv_labF _ (by positivity)]
    ring
  · rw [ey, labFinv_labF _ h2]
  · rw [show (116 * labF Y - 16 + 16) / 116 - 200 * (labF Y - labF (Z / 1.08883)) / 200
        = labF (Z / 1.08883) by ring]
    rw [labFinv_labF _ (by positivity)]
    ring

lemma xyzOfLinear_nonneg (p : ℝ × ℝ × ℝ) (h1 : 0 ≤ p.1) (h2 : 0 ≤ p.2.1)
    (h3 : 0 ≤ p.2.2) : 0 ≤ (xyzOfLinear p).1 ∧ 0 ≤ (xyzOfLinear p).2.1 ∧
      0 ≤ (xyzOfLinear p).2.2 := by
  obtain ⟨r, g, b⟩ := p
  simp only at h1 h2 h3
  simp only [xyzOfLinear]
  refine ⟨?_, ?_, ?_⟩ <;> nlinarith

lemma byte_transfer_round (k : Nat) :
    linearToSrgb (srgbToLinear ((k : ℝ) / 255)) = (k : ℝ) / 255 := by
  apply linearToSrgb_srgbToLinear
  rcases le_or_lt k 10 with h | h
  · left
    have : (k : ℝ) ≤ 10 := by exact_mod_cast h
    rw [div_le_iff₀ (by norm_num : (0:ℝ) < 255)]
    linarith
  · right
    have : (11 : ℝ) ≤ (k : ℝ) := by exact_mod_cast h
    rw [div_le_div_iff_of_pos_right (show (0:ℝ) < 255 by norm_num)]
    exact this

lemma hcl_round_exact (rgb : RGB) (h0r : 0 ≤ rgb.r) (h1r : rgb.r ≤ 255)
    (h0g : 0 ≤ rgb.g) (h1g : rgb.g ≤ 255) (h0b : 0 ≤ rgb.b) (h1b : rgb.b ≤ 255) :
    hclToRgb (rgbToHcl rgb) = rgb := by
  obtain ⟨r, g, b⟩ := rgb
  simp only at h0r h1r h0g h1g h0b h1b
  set ur : ℝ := (clampByte r : ℝ) / 255 with hur
  set ug : ℝ := (clampByte g : ℝ) / 255 with hug
  set ub : ℝ := (clampByte b : ℝ) / 255 with hub
  set lin : ℝ × ℝ × ℝ := (srgbToLinear ur, srgbToLinear ug, srgbToLinear ub) with hlin
  set xyz : ℝ × ℝ × ℝ := xyzOfLinear lin with hxyz
  set lab : ℝ × ℝ × ℝ := labOfXyz xyz with hlab
  have hshape : rgbToHcl ⟨r, g, b⟩
      = ⟨lab.1, polarChroma lab.2.1 lab.2.2, polarHue lab.2.1 lab.2.2⟩ := rfl
  rw [hshape]
  have hxyz0 : 0 ≤ xyz.1 ∧ 0 ≤ xyz.2.1 ∧ 0 ≤ xyz.2.2 := by
    rw [hxyz]
    exact xyzOfLinear_nonneg lin
      (srgbToLinear_nonneg _ (by rw [hur]; positivity))
      (srgbToLinear_nonneg _ (by rw [hug]; positivity))
      (srgbToLinear_nonneg _ (by rw [hub]; positivity))
  show (⟨realToByte (255 * linearToSrgb (linearOfXyz (xyzOfLab
      (lab.1, polarChroma lab.2.1 lab.2.2 * Real.cos (polarHue lab.2.1 lab.2.2 * Real.pi / 180),
       polarChroma lab.2.1 lab.2.2 * Real.sin (polarHue lab.2.1 lab.2.2 * Real.pi / 180)))).1),
      realToByte (255 * linearToSrgb (linearOfXyz (xyzOfLab
      (lab.1, polarChroma lab.2.1 lab.2.2 * Real.cos (polarHue lab.2.1 lab.2.2 * Real.pi / 180),
       polarChroma lab.2.1 lab.2.2 * Real.sin (polarHue lab.2.1 lab.2.2 * Real.pi / 180)))).2.1),
      realToByte (255 * linearToSrgb (linearOfXyz (xyzOfLab
      (lab.1, polarChroma lab.2.1 lab.2.2 * Real.cos (polarHue lab.2.1 lab.2.2 * Real.pi / 180),
       polarChroma lab.2.1 lab.2.2 * Real.sin (polarHue lab.2.1 lab.2.2 * Real.pi / 180)))).2.2)⟩ : RGB)
      = ⟨r, g, b⟩
  rw [polar_cos, polar_sin]
  have htriple : (lab.1, lab.2.1, lab.2.2) = lab := rfl
  rw [htriple]
  rw [hlab, xyzOfLab_labOfXyz xyz hxyz0.1 hxyz0.2.1 hxyz0.2.2]
  rw [hxyz, linearOfXyz_xyzOfLinear]
  rw [hlin]
  simp only
  rw [hur, hug, hub, byte_transfer_round, byte_transfer_round, byte_transfer_round]
  have hcancel : ∀ k : Nat, (255 : ℝ) * ((k : ℝ) / 255) = ((k : ℤ) : ℝ) := by
    intro k
    push_cast
    ring
  rw [hcancel, hcancel, hcancel]
  rw [realToByte_intCast _ (by exact_mod_cast Nat.zero_le _)
      (by exact_mod_cast clampByte_le r),
    realToByte_intCast _ (by exact_mod_cast Nat.zero_le _)
      (by exact_mod_cast clampByte_le g),
    realToByte_intCast _ (by exact_mod_cast Nat.zero_le _)
      (by exact_mod_cast clampByte_le b)]
  rw [clampByte_of_mem r h0r h1r, clampByte_of_mem g h0g h1g, clampByte_of_mem b h0b h1b]

lemma linearOfLms_lmsOfLinear (p : ℝ × ℝ × ℝ) : linearOfLms (lmsOfLinear p) = p := by
  obtain ⟨r, g, b⟩ := p
  simp only [lmsOfLinear, linearOfLms, Prod.mk.injEq]
  refine ⟨?_, ?_, ?_⟩ <;> ring

lemma lms3OfOklab_oklabOfLms3 (p : ℝ × ℝ × ℝ) : lms3OfOklab (oklabOfLms3 p) = p := by
  obtain ⟨r, g, b⟩ := p
  simp only [oklabOfLms3, lms3OfOklab, Prod.mk.injEq]
  refine ⟨?_, ?_, ?_⟩ <;> ring

lemma okCbrt_cube (t : ℝ) (ht : 0 ≤ t) : okCbrt t ^ 3 = t := by
  unfold okCbrt
  rw [← Real.rpow_natCast (t ^ ((1 : ℝ) / 3)) 3, ← Real.rpow_mul ht]
  norm_num

lemma lmsOfLinear_nonneg (p : ℝ × ℝ × ℝ) (h1 : 0 ≤ p.1) (h2 : 0 ≤ p.2.1)
    (h3 : 0 ≤ p.2.2) : 0 ≤ (lmsOfLinear p).1 ∧ 0 ≤ (lmsOfLinear p).2.1 ∧
      0 ≤ (lmsOfLinear p).2.2 := by
  obtain ⟨r, g, b⟩ := p
  simp only at h1 h2 h3
  simp only [lmsOfLinear]
  refine ⟨?_, ?_, ?_⟩ <;> nlinarith

lemma oklch_round_exact (rgb : RGB) (h0r : 0 ≤ rgb.r) (h1r : rgb.r ≤ 255)
    (h0g : 0 ≤ rgb.g) (h1g : rgb.g ≤ 255) (h0b : 0 ≤ rgb.b) (h1b : rgb.b ≤ 255) :
    oklchToRgb (rgbToOklch rgb) = rgb := by
  obtain ⟨r, g, b⟩ := rgb
  simp only at h0r h1r h0g h1g h0b h1b
  set ur : ℝ := (clampByte r : ℝ) / 255 with hur
  set ug : ℝ := (clampByte g : ℝ) / 255 with hug
  set ub : ℝ := (clampByte b : ℝ) / 255 with hub
  set lin : ℝ × ℝ × ℝ := (srgbToLinear ur, srgbToLinear ug, srgbToLinear ub) with hlin
  set lms : ℝ × ℝ × ℝ := lmsOfLinear lin with hlms
  set lab : ℝ × ℝ × ℝ := oklabOfLms3 (okCbrt lms.1, okCbrt lms.2.1, okCbrt lms.2.2) with hlab2
  have hshape : rgbToOklch ⟨r, g, b⟩
      = ⟨lab.1, polarChroma lab.2.1 lab.2.2, polarHue lab.2.1 lab.2.2⟩ := rfl
  rw [hshape]
  have hlms0 : 0 ≤ lms.1 ∧ 0 ≤ lms.2.1 ∧ 0 ≤ lms.2.2 := by
    rw [hlms]
    exact lmsOfLinear_nonneg lin
      (srgbToLinear_nonneg _ (by rw [hur]; positivity))
      (srgbToLinear_nonneg _ (by rw [hug]; positivity))
      (srgbToLinear_nonneg _ (by rw [hub]; positivity))
  show (⟨realToByte (255 * linearToSrgb ((linearOfLms
      (((lms3OfOklab (lab.1,
        polarChroma lab.2.1 lab.2.2 * Real.cos (polarHue lab.2.1 lab.2.2 * Real.pi / 180),
        polarChroma lab.2.1 lab.2.2 * Real.sin (polarHue lab.2.1 lab.2.2 * Real.pi / 180))).1) ^ 3,
       ((lms3OfOklab (lab.1,
        polarChroma lab.2.1 lab.2.2 * Real.cos (polarHue lab.2.1 lab.2.2 * Real.pi / 180),
        polarChroma lab.2.1 lab.2.2 * Real.sin (polarHue lab.2.1 lab.2.2 * Real.pi / 180))).2.1) ^ 3,
       ((lms3OfOklab (lab.1,
        polarChroma lab.2.1 lab.2.2 * Real.cos (polarHue lab.2.1 lab.2.2 * Real.pi / 180),
        polarChroma lab.2.1 lab.2.2 * Real.sin (polarHue lab.2.1 lab.2.2 * Real.pi / 180))).2.2) ^ 3)).1)),
      realToByte (255 * linearToSrgb ((linearOfLms
      (((lms3OfOklab (lab.1,
        polarChroma lab.2.1 lab.2.2 * Real.cos (polarHue lab.2.1 lab.2.2 * Real.pi / 180),
        polarChroma lab.2.1 lab.2.2 * Real.sin (polarHue lab.2.1 lab.2.2 * Real.pi / 180))).1) ^ 3,
       ((lms3OfOklab (lab.1,
        polarChroma lab.2.1 lab.2.2 * Real.cos (polarHue lab.2.1 lab.2.2 * Real.pi / 180),
        polarChroma lab.2.1 lab.2.2 * Real.sin (polarHue lab.2.1 lab.2.2 * Real.pi / 180))).2.1) ^ 3,
       ((lms3OfOklab (lab.1,
        polarChroma lab.2.1 lab.2.2 * Real.cos (polarHue lab.2.1 lab.2.2 * Real.pi / 180),
        polarChroma lab.2.1 lab.2.2 * Real.sin (polarHue lab.2.1 lab.2.2 * Real.pi / 180))).2.2) ^ 3)).2.1)),
      realToByte (255 * linearToSrgb ((linearOfLms
      (((lms3OfOklab (lab.1,
        polarChroma lab.2.1 lab.2.2 * Real.cos (polarHue lab.2.1 lab.2.2 * Real.pi / 180),
        polarChroma lab.2.1 lab.2.2 * Real.sin (polarHue lab.2.1 lab.2.2 * Real.pi / 180))).1) ^ 3,
       ((lms3OfOklab (lab.1,
        polarChroma lab.2.1 lab.2.2 * Real.cos (polarHue lab.2.1 lab.2.2 * Real.pi / 180),
        polarChroma lab.2.1 lab.2.2 * Real.sin (polarHue lab.2.1 lab.2.2 * Real.pi / 180))).2.1) ^ 3,
       ((lms3OfOklab (lab.1,
        polarChroma lab.2.1 lab.2.2 * Real.cos (polarHue lab.2.1 lab.2.2 * Real.pi / 180),
        polarChroma lab.2.1 lab.2.2 * Real.sin (polarHue lab.2.1 lab.2.2 * Real.pi / 180))).2.2) ^ 3)).2.2))⟩ : RGB)
      = ⟨r, g, b⟩
  rw [polar_cos, polar_sin]
  have htriple : (lab.1, lab.2.1, lab.2.2) = lab := rfl
  rw [htriple]
  rw [hlab2, lms3OfOklab_oklabOfLms3]
  simp only
  rw [okCbrt_cube _ hlms0.1, okCbrt_cube _ hlms0.2.1, okCbrt_cube _ hlms0.2.2]
  have htriple2 : (lms.1, lms.2.1, lms.2.2) = lms := rfl
  rw [htriple2, hlms, linearOfLms_lmsOfLinear]
  rw [hlin]
  simp only
  rw [hur, hug, hub, byte_transfer_round, byte_transfer_round, byte_transfer_round]
  have hcancel : ∀ k : Nat, (255 : ℝ) * ((k : ℝ) / 255) = ((k : ℤ) : ℝ) := by
    intro k
    push_cast
    ring
  rw [hcancel, hcancel, hcancel]
  rw [realToByte_intCast _ (by exact_mod_cast Nat.zero_le _)
      (by exact_mod_cast clampByte_le r),
    realToByte_intCast _ (by exact_mod_cast Nat.zero_le _)
      (by exact_mod_cast clampByte_le g),
    realToByte_intCast _ (by exact_mod_cast Nat.zero_le _)
      (by exact_mod_cast clampByte_le b)]
  rw [clampByte_of_mem r h0r h1r, clampByte_of_mem g h0g h1g, clampByte_of_mem b h0b h1b]

set_option maxHeartbeats 2000000 in
lemma hsl_round_exact (rgb : RGB) (h0r : 0 ≤ rgb.r) (h1r : rgb.r ≤ 255)
    (h0g : 0 ≤ rgb.g) (h1g : rgb.g ≤ 255) (h0b : 0 ≤ rgb.b) (h1b : rgb.b ≤ 255) :
    hslToRgb (rgbToHsl rgb) = Except.ok rgb := by
  obtain ⟨r, g, b⟩ := rgb
  simp only at h0r h1r h0g h1g h0b h1b
  set x : ℚ := (clampByte r : ℚ) / 255 with hxdef
  set y : ℚ := (clampByte g : ℚ) / 255 with hydef
  set z : ℚ := (clampByte b : ℚ) / 255 with hzdef
  have hx0 : 0 ≤ x := by rw [hxdef]; positivity
  have hy0 : 0 ≤ y := by rw [hydef]; positivity
  have hz0 : 0 ≤ z := by rw [hzdef]; positivity
  have hx1 : x ≤ 1 := by
    rw [hxdef, div_le_one (by norm_num)]
    exact_mod_cast clampByte_le r
  have hy1 : y ≤ 1 := by
    rw [hydef, div_le_one (by norm_num)]
    exact_mod_cast clampByte_le g
  have hz1 : z ≤ 1 := by
    rw [hzdef, div_le_one (by norm_num)]
    exact_mod_cast clampByte_le b
  have hx255 : (255 : ℚ) * x = ((clampByte r : Int) : ℚ) := by
    rw [hxdef]; push_cast; ring
  have hy255 : (255 : ℚ) * y = ((clampByte g : Int) : ℚ) := by
    rw [hydef]; push_cast; ring
  have hz255 : (255 : ℚ) * z = ((clampByte b : Int) : ℚ) := by
    rw [hzdef]; push_cast; ring
  have hback : (Except.ok (⟨roundHalf (255 * x), roundHalf (255 * y), roundHalf (255 * z)⟩ : RGB)
      : Except ColorError RGB) = Except.ok (⟨r, g, b⟩ : RGB) := by
    rw [hx255, hy255, hz255, roundHalf_intCast, roundHalf_intCast, roundHalf_intCast,
      clampByte_of_mem r h0r h1r, clampByte_of_mem g h0g h1g, clampByte_of_mem b h0b h1b]
  rw [← hback]
  show hslToRgb ⟨normalizeHue (60 *
      (if max x (max y z) - min x (min y z) = 0 then 0
       else if max x (max y z) = x then (y - z) / (max x (max y z) - min x (min y z))
       else if max x (max y z) = y then (z - x) / (max x (max y z) - min x (min y z)) + 2
       else (x - y) / (max x (max y z) - min x (min y z)) + 4)),
    100 * (if max x (max y z) - min x (min y z) = 0 then 0
       else (max x (max y z) - min x (min y z))
         / (1 - |2 * ((max x (max y z) + min x (min y z)) / 2) - 1|)),
    100 * ((max x (max y z) + min x (min y z)) / 2)⟩
    = Except.ok ⟨roundHalf (255 * x), roundHalf (255 * y), roundHalf (255 * z)⟩
  set M : ℚ := max x (max y z) with hM
  set m : ℚ := min x (min y z) with hm
  have hxle : x ≤ M := le_max_left _ _
  have hyle : y ≤ M := le_trans (le_max_left _ _) (le_max_right _ _)
  have hzle : z ≤ M := le_trans (le_max_right _ _) (le_max_right _ _)
  have hxge : m ≤ x := min_le_left _ _
  have hyge : m ≤ y := le_trans (min_le_right _ _) (min_le_left _ _)
  have hzge : m ≤ z := le_trans (min_le_right _ _) (min_le_right _ _)
  have hM1 : M ≤ 1 := max_le hx1 (max_le hy1 hz1)
  have hm0 : 0 ≤ m := le_min hx0 (le_min hy0 hz0)
  have hmM : m ≤ M := le_trans hxge hxle
  by_cases hd : M - m = 0
  · -- achromatic: all three channels coincide
    have hMm : M = m := by linarith
    have hxM : x = M := le_antisymm hxle (by rw [hMm]; exact hxge)
    have hyM : y = M := le_antisymm hyle (by rw [hMm]; exact hyge)
    have hzM : z = M := le_antisymm hzle (by rw [hMm]; exact hzge)
    rw [if_pos hd, if_pos hd]
    rw [mul_zero, normalizeHue_eq_self 0 le_rfl (by norm_num), mul_zero]
    rw [hslToRgb_eval0 0 0 (100 * ((M + m) / 2)) le_rfl (by norm_num)
      (by linarith) (by linarith) le_rfl (by norm_num)]
    have hhx : (M + m) / 2 = x := by rw [hxM, hMm]; ring
    have hhy : (M + m) / 2 = y := by rw [hyM, hMm]; ring
    have hhz : (M + m) / 2 = z := by rw [hzM, hMm]; ring
    simp only [Except.ok.injEq, RGB.mk.injEq]
    refine ⟨?_, ?_, ?_⟩
    · congr 1; rw [← hhx]; ring
    · congr 1; rw [← hhy]; ring
    · congr 1; rw [← hhz]; ring
  · -- chromatic case
    have hd' : 0 < M - m := lt_of_le_of_ne (by linarith) (fun h => hd h.symm)
    have hne : M - m ≠ 0 := ne_of_gt hd'
    rw [if_neg hd, if_neg hd]
    set D : ℚ := 1 - |2 * ((M + m) / 2) - 1| with hD
    have hDge : M - m ≤ D := by
      have habs : |2 * ((M + m) / 2) - 1| ≤ 1 - (M - m) :=
        abs_le.mpr ⟨by linarith, by linarith⟩
      rw [hD]
      linarith
    have hD0 : 0 < D := lt_of_lt_of_le hd' hDge
    have hDne : D ≠ 0 := ne_of_gt hD0
    have hS0 : 0 ≤ 100 * ((M - m) / D) := by positivity
    have hS1 : 100 * ((M - m) / D) ≤ 100 := by
      have hs1 : (M - m) / D ≤ 1 := (div_le_one hD0).mpr hDge
      linarith
    have hL0 : 0 ≤ 100 * ((M + m) / 2) := by linarith
    have hL1 : 100 * ((M + m) / 2) ≤ 100 := by linarith
    have hLeq : (100 * ((M + m) / 2) : ℚ) / 100 = (M + m) / 2 := by ring
    have hCeq : (1 - |2 * (100 * ((M + m) / 2) / 100) - 1|) * (100 * ((M - m) / D) / 100)
        = M - m := by
      rw [show |2 * (100 * ((M + m) / 2) / 100) - 1| = |2 * ((M + m) / 2) - 1| from
        congrArg abs (by ring), ← hD]
      field_simp
      ring
    by_cases hMx : M = x
    · rw [if_pos hMx]
      by_cases hyz : z ≤ y
      · -- min is z, raw = (y - z)/(M - m) ∈ [0, 1]
        have hmz : m = z := by
          rw [hm, min_eq_right hyz, min_eq_right (hMx ▸ hzle)]
        have hraw0 : 0 ≤ (y - z) / (M - m) := div_nonneg (by linarith) (le_of_lt hd')
        have hraw1 : (y - z) / (M - m) ≤ 1 := by
          rw [div_le_one hd']
          linarith [hyle, hzge]
        by_cases hr1 : (y - z) / (M - m) = 1
        · -- raw = 1: hue 60, sector 1
          have hyzd : y - z = M - m := by
            field_simp at hr1
            linarith
          have hyM : y = M := by linarith [hmz, hyzd]
          rw [hr1, mul_one, normalizeHue_eq_self 60 (by norm_num) (by norm_num)]
          rw [hslToRgb_eval1 60 _ _ hS0 hS1 hL0 hL1 (by norm_num) (by norm_num)]
          rw [hCeq, hLeq]
          simp only [Except.ok.injEq, RGB.mk.injEq]
          rw [← hMx, hyM, ← hmz]
          refine ⟨?_, ?_, ?_⟩ <;> · congr 1; ring
        · -- raw < 1: sector 0
          have hrlt : (y - z) / (M - m) < 1 := lt_of_le_of_ne hraw1 hr1
          rw [normalizeHue_eq_self (60 * ((y - z) / (M - m)))
            (by positivity) (by linarith)]
          rw [hslToRgb_eval0 (60 * ((y - z) / (M - m))) _ _ hS0 hS1 hL0 hL1
            (by positivity) (by linarith)]
          rw [hCeq, hLeq]
          simp only [Except.ok.injEq, RGB.mk.injEq]
          rw [← hMx, ← hmz]
          refine ⟨?_, ?_, ?_⟩
          · congr 1; ring
          · congr 1; field_simp; ring
          · congr 1; ring
      · -- y < z: min is y, raw ∈ [-1, 0), sector 5
        push_neg at hyz
        have hmy : m = y := by
          rw [hm, min_eq_left (le_of_lt hyz), min_eq_right (hMx ▸ hyle)]
        have hraw0 : (y - z) / (M - m) < 0 :=
          div_neg_of_neg_of_pos (by linarith) hd'
        have hraw1 : -1 ≤ (y - z) / (M - m) := by
          rw [le_div_iff₀ hd']
          linarith [hzle, hyge]
        rw [normalizeHue_neg (60 * ((y - z) / (M - m))) (by linarith) (by linarith)]
        rw [hslToRgb_eval5 (60 * ((y - z) / (M - m)) + 360) _ _ hS0 hS1 hL0 hL1
          (by linarith) (by linarith)]
        rw [hCeq, hLeq]
        simp only [Except.ok.injEq, RGB.mk.injEq]
        rw [← hMx, ← hmy]
        refine ⟨?_, ?_, ?_⟩
        · congr 1; ring
        · congr 1; ring
        · congr 1; field_simp; ring
    · by_cases hMy : M = y
      · -- max is y
        rw [if_neg hMx, if_pos hMy]
        have hxM : x < M := lt_of_le_of_ne hxle (fun h => hMx h.symm)
        by_cases hxz : x ≤ z
        · -- min is x, raw ∈ [2, 3]
          have hmx : m = x := by
            rw [hm, min_eq_right (show z ≤ y by rw [← hMy]; exact hzle), min_eq_left hxz]
          have hraw2 : (0:ℚ) ≤ (z - x) / (M - m) :=
            div_nonneg (by linarith) (le_of_lt hd')
          have hraw3 : (z - x) / (M - m) ≤ 1 := by
            rw [div_le_one hd']
            linarith [hzle, hxge]
          by_cases hr3 : (z - x) / (M - m) + 2 = 3
          · -- raw = 3: hue 180, sector 3, z is also maximal
            have hr1 : (z - x) / (M - m) = 1 := by linarith
            have hzd : z - x = M - m := by
              field_simp at hr1
              linarith
            have hzM : z = M := by linarith [hmx, hzd]
            rw [hr3, show (60:ℚ) * 3 = 180 by norm_num,
              normalizeHue_eq_self 180 (by norm_num) (by norm_num)]
            rw [hslToRgb_eval3 180 _ _ hS0 hS1 hL0 hL1 (by norm_num) (by norm_num)]
            rw [hCeq, hLeq]
            simp only [Except.ok.injEq, RGB.mk.injEq]
            rw [← hMy, hzM, ← hmx]
            refine ⟨?_, ?_, ?_⟩ <;> · congr 1; ring
          · -- raw ∈ [2, 3): sector 2
            have hrlt : (z - x) / (M - m) + 2 < 3 := lt_of_le_of_ne (by linarith) hr3
            rw [normalizeHue_eq_self (60 * ((z - x) / (M - m) + 2))
              (by linarith) (by linarith)]
            rw [hslToRgb_eval2 (60 * ((z - x) / (M - m) + 2)) _ _ hS0 hS1 hL0 hL1
              (by linarith) (by linarith)]
            rw [hCeq, hLeq]
            simp only [Except.ok.injEq, RGB.mk.injEq]
            rw [← hMy, ← hmx]
            refine ⟨?_, ?_, ?_⟩
            · congr 1; ring
            · congr 1; ring
            · congr 1; field_simp; ring
        · -- z < x: min is z, raw ∈ (1, 2): sector 1
          push_neg at hxz
          have hmz : m = z := by
            rw [hm, min_eq_right (show z ≤ y by rw [← hMy]; exact hzle), min_eq_right (le_of_lt hxz)]
          have hraw1 : (1:ℚ) < (z - x) / (M - m) + 2 := by
            have : (-1:ℚ) < (z - x) / (M - m) := by
              rw [lt_div_iff₀ hd']
              linarith [hxM, hzge]
            linarith
          have hraw2 : (z - x) / (M - m) + 2 < 2 := by
            have : (z - x) / (M - m) < 0 := div_neg_of_neg_of_pos (by linarith) hd'
            linarith
          rw [normalizeHue_eq_self (60 * ((z - x) / (M - m) + 2))
            (by linarith) (by linarith)]
          rw [hslToRgb_eval1 (60 * ((z - x) / (M - m) + 2)) _ _ hS0 hS1 hL0 hL1
            (by linarith) (by linarith)]
          rw [hCeq, hLeq]
          simp only [Except.ok.injEq, RGB.mk.injEq]
          rw [← hMy, ← hmz]
          refine ⟨?_, ?_, ?_⟩
          · congr 1; field_simp; ring
          · congr 1; ring
          · congr 1; ring
      · -- max is z
        rw [if_neg hMx, if_neg hMy]
        have hMz : M = z := by
          rcases max_choice x (max y z) with h | h
          · exact absurd (hM.trans h) hMx
          · rcases max_choice y z with h2 | h2
            · exact absurd (hM.trans (h.trans h2)) hMy
            · exact hM.trans (h.trans h2)
        have hxM : x < M := lt_of_le_of_ne hxle (fun h => hMx h.symm)
        have hyM : y < M := lt_of_le_of_ne hyle (fun h => hMy h.symm)
        by_cases hxy : x < y
        · -- min is x, raw ∈ (3, 4): sector 3
          have hmx : m = x := by
            rw [hm, min_eq_left (show y ≤ z by rw [← hMz]; exact hyM.le), min_eq_left (le_of_lt hxy)]
          have hraw3 : (3:ℚ) < (x - y) / (M - m) + 4 := by
            have : (-1:ℚ) < (x - y) / (M - m) := by
              rw [lt_div_iff₀ hd']
              linarith [hyM, hxge]
            linarith
          have hraw4 : (x - y) / (M - m) + 4 < 4 := by
            have : (x - y) / (M - m) < 0 := div_neg_of_neg_of_pos (by linarith) hd'
            linarith
          rw [normalizeHue_eq_self (60 * ((x - y) / (M - m) + 4))
            (by linarith) (by linarith)]
          rw [hslToRgb_eval3 (60 * ((x - y) / (M - m) + 4)) _ _ hS0 hS1 hL0 hL1
            (by linarith) (by linarith)]
          rw [hCeq, hLeq]
          simp only [Except.ok.injEq, RGB.mk.injEq]
          rw [← hMz, ← hmx]
          refine ⟨?_, ?_, ?_⟩
          · congr 1; ring
          · congr 1; field_simp; ring
          · congr 1; ring
        · -- min is y, raw ∈ [4, 5): sector 4
          push_neg at hxy
          have hmy : m = y := by
            rw [hm, min_eq_left (show y ≤ z by rw [← hMz]; exact hyM.le), min_eq_right hxy]
          have hraw4 : (0:ℚ) ≤ (x - y) / (M - m) :=
            div_nonneg (by linarith) (le_of_lt hd')
          have hraw5 : (x - y) / (M - m) < 1 := by
            rw [div_lt_one hd']
            linarith [hxM, hyge]
          rw [normalizeHue_eq_self (60 * ((x - y) / (M - m) + 4))
            (by linarith) (by linarith)]
          rw [hslToRgb_eval4 (60 * ((x - y) / (M - m) + 4)) _ _ hS0 hS1 hL0 hL1
            (by linarith) (by linarith)]
          rw [hCeq, hLeq]
          simp only [Except.ok.injEq, RGB.mk.injEq]
          rw [← hMz, ← hmy]
          refine ⟨?_, ?_, ?_⟩
          · congr 1; field_simp; ring
          · congr 1; ring
          · congr 1; ring

/- ========================= Theorems: camera ========================= -/

/-- C7: each press of the overlay switch advances
none → thirds → symmetry → none, and each press of the ratio switch
advances 1:1 → 4:3 → 3:2 → 16:9 → 1:1; applying a switch a number of times
equal to the number of modes returns the original state. -/
theorem c7_cyclic_mode_selection :
    (switchOverlay OverlayMode.none = OverlayMode.thirds ∧
      switchOverlay OverlayMode.thirds = OverlayMode.symmetry ∧
      switchOverlay OverlayMode.symmetry = OverlayMode.none) ∧
    (∀ m : OverlayMode, switchOverlay (switchOverlay (switchOverlay m)) = m) ∧
    (RATIOS.map RatioOption.label = ["1:1", "4:3", "3:2", "16:9"]) ∧
    (∀ i : Nat, switchRatioIndex i = (i + 1) % RATIOS.length) ∧
    (∀ i : Fin RATIOS.length,
      switchRatioIndex (switchRatioIndex (switchRatioIndex (switchRatioIndex (i : Nat)))) =
        (i : Nat)) := by
  refine ⟨⟨rfl, rfl, rfl⟩, ?_, rfl, fun i => rfl, ?_⟩
  · intro m; cases m <;> rfl
  · decide

/-- C9: the facing-mode toggle is an involution on `{user, environment}`:
it swaps the two values, so applying it twice is the identity. -/
theorem c9_switch_camera_involution :
    switchCamera FacingMode.user = FacingMode.environment ∧
    switchCamera FacingMode.environment = FacingMode.user ∧
    ∀ f : FacingMode, switchCamera (switchCamera f) = f := by
  refine ⟨rfl, rfl, ?_⟩
  intro f; cases f <;> rfl

/-- C10: `switchRatio` maps the index to `(prev + 1) % RATIOS.length`, so
from the initial index 0 the index always stays below `RATIOS.length = 4`
and indexes a defined entry of `RATIOS`. -/
theorem c10_ratio_index_invariant :
    (∀ i : Nat, switchRatioIndex i = (i + 1) % RATIOS.length) ∧
    RATIOS.length = 4 ∧
    ∀ n : Nat, ratioIndexAfter n < RATIOS.length ∧
      (RATIOS.get? (ratioIndexAfter n)).isSome = true := by
  refine ⟨fun i => rfl, rfl, ?_⟩
  intro n
  have hlt : ratioIndexAfter n < RATIOS.length := by
    induction n with
    | zero => simp [ratioIndexAfter, RATIOS]
    | succ k _ =>
      show switchRatioIndex (ratioIndexAfter k) < RATIOS.length
      exact Nat.mod_lt _ (by simp [RATIOS])
  refine ⟨hlt, ?_⟩
  rw [List.get?_eq_get hlt]
  rfl

/-- C8: for positive video dimensions and a positive target ratio, the crop
region computed by `handleCapture` has aspect ratio exactly the target,
fits inside the video frame, and is centered with nonnegative offsets. -/
theorem c8_handle_capture_crop (videoWidth videoHeight targetValue : ℚ)
    (hw : 0 < videoWidth) (hh : 0 < videoHeight) (ht : 0 < targetValue) :
    (handleCaptureCrop videoWidth videoHeight targetValue).cropWidth /
        (handleCaptureCrop videoWidth videoHeight targetValue).cropHeight = targetValue ∧
    (handleCaptureCrop videoWidth videoHeight targetValue).cropWidth ≤ videoWidth ∧
    (handleCaptureCrop videoWidth videoHeight targetValue).cropHeight ≤ videoHeight ∧
    (handleCaptureCrop videoWidth videoHeight targetValue).sx =
        (videoWidth - (handleCaptureCrop videoWidth videoHeight targetValue).cropWidth) / 2 ∧
    0 ≤ (handleCaptureCrop videoWidth videoHeight targetValue).sx ∧
    (handleCaptureCrop videoWidth videoHeight targetValue).sy =
        (videoHeight - (handleCaptureCrop videoWidth videoHeight targetValue).cropHeight) / 2 ∧
    0 ≤ (handleCaptureCrop videoWidth videoHeight targetValue).sy := by
  set c := handleCaptureCrop videoWidth videoHeight targetValue with hcdef
  have hh0 : videoHeight ≠ 0 := ne_of_gt hh
  have hw0 : videoWidth ≠ 0 := ne_of_gt hw
  have ht0 : targetValue ≠ 0 := ne_of_gt ht
  by_cases hcmp : videoWidth / videoHeight > targetValue
  · have hc : c = ⟨videoHeight * targetValue, videoHeight,
        (videoWidth - videoHeight * targetValue) / 2, (videoHeight - videoHeight) / 2⟩ := by
      simp only [c, handleCaptureCrop, if_pos hcmp]
    have hfit : videoHeight * targetValue ≤ videoWidth := by
      have := (lt_div_iff₀ hh).mp hcmp
      linarith
    refine ⟨?_, ?_, ?_, ?_, ?_, ?_, ?_⟩
    · rw [hc]; exact mul_div_cancel_left₀ _ hh0
    · rw [hc]; exact hfit
    · rw [hc]
    · rw [hc]
    · rw [hc]
      have : (0 : ℚ) ≤ videoWidth - videoHeight * targetValue := by linarith
      positivity
    · rw [hc]
    · rw [hc]; simp
  · have hle : videoWidth / videoHeight ≤ targetValue := le_of_not_lt hcmp
    have hc : c = ⟨videoWidth, videoWidth / targetValue,
        (videoWidth - videoWidth) / 2, (videoHeight - videoWidth / targetValue) / 2⟩ := by
      simp only [c, handleCaptureCrop, if_neg hcmp]
    have hfit : videoWidth / targetValue ≤ videoHeight := by
      rw [div_le_iff₀ ht]
      have := (div_le_iff₀ hh).mp hle
      linarith
    refine ⟨?_, ?_, ?_, ?_, ?_, ?_, ?_⟩
    · rw [hc]
      show videoWidth / (videoWidth / targetValue) = targetValue
      rw [div_div_eq_mul_div, mul_comm, mul_div_assoc, div_self hw0, mul_one]
    · rw [hc]
    · rw [hc]; exact hfit
    · rw [hc]
    · rw [hc]; simp
    · rw [hc]
    · rw [hc]
      have : (0 : ℚ) ≤ videoHeight - videoWidth / targetValue := by linarith
      positivity

/-- Witness for C8 at videoWidth 640, videoHeight 480, target ratio 16/9. -/
theorem c8_handle_capture_crop_witness :
    (0 : ℚ) < 640 ∧ (0 : ℚ) < 480 ∧ (0 : ℚ) < 16 / 9 ∧
    ((handleCaptureCrop 640 480 (16 / 9)).cropWidth /
        (handleCaptureCrop 640 480 (16 / 9)).cropHeight = 16 / 9 ∧
     (handleCaptureCrop 640 480 (16 / 9)).cropWidth ≤ 640 ∧
     (handleCaptureCrop 640 480 (16 / 9)).cropHeight ≤ 480 ∧
     (handleCaptureCrop 640 480 (16 / 9)).sx =
        (640 - (handleCaptureCrop 640 480 (16 / 9)).cropWidth) / 2 ∧
     0 ≤ (handleCaptureCrop 640 480 (16 / 9)).sx ∧
     (handleCaptureCrop 640 480 (16 / 9)).sy =
        (480 - (handleCaptureCrop 640 480 (16 / 9)).cropHeight) / 2 ∧
     0 ≤ (handleCaptureCrop 640 480 (16 / 9)).sy) :=
  ⟨by norm_num, by norm_num, by norm_num,
    c8_handle_capture_crop 640 480 (16 / 9) (by norm_num) (by norm_num) (by norm_num)⟩

/- ========================= Theorems: colors ========================= -/

/-- C1: for every RGB value with integer channels in [0,255], composing
`rgbToHex` then `hexToRgb` returns exactly the original RGB value. -/
theorem c1_hex_rgb_round_trip (rgb : RGB) (h0r : 0 ≤ rgb.r) (h1r : rgb.r ≤ 255)
    (h0g : 0 ≤ rgb.g) (h1g : rgb.g ≤ 255) (h0b : 0 ≤ rgb.b) (h1b : rgb.b ≤ 255) :
    hexToRgb (rgbToHex rgb) = Except.ok rgb := by
  obtain ⟨r, g, b⟩ := rgb
  simp only at h0r h1r h0g h1g h0b h1b
  have hcr : (clampByte r : Int) = r := clampByte_of_mem r h0r h1r
  have hcg : (clampByte g : Int) = g := clampByte_of_mem g h0g h1g
  have hcb : (clampByte b : Int) = b := clampByte_of_mem b h0b h1b
  have hlr : clampByte r ≤ 255 := clampByte_le r
  have hlg : clampByte g ≤ 255 := clampByte_le g
  have hlb : clampByte b ≤ 255 := clampByte_le b
  show hexToRgb (String.mk ('#' :: (byteHex (clampByte r) ++
      byteHex (clampByte g) ++ byteHex (clampByte b)))) = Except.ok ⟨r, g, b⟩
  simp only [hexToRgb, toList_mk, stripHash, byteHex, List.head?_cons, List.tail_cons,
    List.cons_append, List.nil_append, validHexBody, List.all_cons, List.all_nil,
    List.length_cons, List.length_nil]
  norm_num [decodeHexBody]
  rw [hexVal_toHexChar _ (show clampByte r / 16 < 16 by omega),
    hexVal_toHexChar _ (show clampByte r % 16 < 16 by omega),
    hexVal_toHexChar _ (show clampByte g / 16 < 16 by omega),
    hexVal_toHexChar _ (show clampByte g % 16 < 16 by omega),
    hexVal_toHexChar _ (show clampByte b / 16 < 16 by omega),
    hexVal_toHexChar _ (show clampByte b % 16 < 16 by omega)]
  rw [if_pos ⟨isHexDig_toHexChar _ (show clampByte r / 16 < 16 by omega),
    isHexDig_toHexChar _ (show clampByte r % 16 < 16 by omega),
    isHexDig_toHexChar _ (show clampByte g / 16 < 16 by omega),
    isHexDig_toHexChar _ (show clampByte g % 16 < 16 by omega),
    isHexDig_toHexChar _ (show clampByte b / 16 < 16 by omega),
    isHexDig_toHexChar _ (show clampByte b % 16 < 16 by omega)⟩]
  simp only [Except.ok.injEq, RGB.mk.injEq]
  refine ⟨?_, ?_, ?_⟩ <;> omega

/-- Witness for C1 at pure red (255, 0, 0). -/
theorem c1_hex_rgb_round_trip_witness :
    hexToRgb (rgbToHex ⟨255, 0, 0⟩) = Except.ok ⟨255, 0, 0⟩ :=
  c1_hex_rgb_round_trip ⟨255, 0, 0⟩ (by decide) (by decide) (by decide)
    (by decide) (by decide) (by decide)

/-- C3: `hexToRgb` fails with `InvalidFormat` exactly when, after an
optional leading '#', the input is not 3 or 6 hex digits; in particular on
"#zzz" and "12345"; and `hslToRgb` fails with `OutOfRange` exactly when s
or l lies outside [0,100], in particular on (h 0, s 150, l 50). -/
theorem c3_invalid_inputs :
    (∀ s : String,
      hexToRgb s = Except.error ColorError.InvalidFormat ↔
        ¬(((stripHash s.toList).length = 3 ∨ (stripHash s.toList).length = 6) ∧
          ∀ c ∈ stripHash s.toList, isHexDig c = true)) ∧
    hexToRgb "#zzz" = Except.error ColorError.InvalidFormat ∧
    hexToRgb "12345" = Except.error ColorError.InvalidFormat ∧
    (∀ hsl : HSL, hslToRgb hsl = Except.error ColorError.OutOfRange ↔
      ¬(0 ≤ hsl.s ∧ hsl.s ≤ 100 ∧ 0 ≤ hsl.l ∧ hsl.l ≤ 100)) ∧
    hslToRgb ⟨0, 150, 50⟩ = Except.error ColorError.OutOfRange := by
  refine ⟨?_, rfl, rfl, ?_, rfl⟩
  · intro s
    rw [← validHex_iff]
    unfold hexToRgb
    cases hv : validHexBody (stripHash s.toList) <;> simp
  · intro hsl
    unfold hslToRgb
    by_cases h : 0 ≤ hsl.s ∧ hsl.s ≤ 100 ∧ 0 ≤ hsl.l ∧ hsl.l ≤ 100 <;> simp [h]

/-- Witness for C3: the "#zzz" and (0, 150, 50) rejections, read off the
theorem. -/
theorem c3_invalid_inputs_witness :
    hexToRgb "#zzz" = Except.error ColorError.InvalidFormat ∧
    hslToRgb ⟨0, 150, 50⟩ = Except.error ColorError.OutOfRange :=
  ⟨c3_invalid_inputs.2.1, c3_invalid_inputs.2.2.2.2⟩

/-- C4: `rgbToHex` is total: for every integer input it returns a
7-character string, a leading '#' followed by six lowercase hex digits,
and it encodes the channel-wise clamp of its input to [0,255]. -/
theorem c4_rgb_to_hex_total (rgb : RGB) :
    (rgbToHex rgb).toList.length = 7 ∧
    (rgbToHex rgb).toList.head? = some '#' ∧
    ((rgbToHex rgb).toList.tail.all fun c =>
      ('0' ≤ c && c ≤ '9') || ('a' ≤ c && c ≤ 'f')) = true ∧
    rgbToHex rgb = rgbToHex ⟨clampChannel rgb.r, clampChannel rgb.g, clampChannel rgb.b⟩ ∧
    (∀ x : Int, 0 ≤ clampChannel x ∧ clampChannel x ≤ 255) := by
  obtain ⟨r, g, b⟩ := rgb
  refine ⟨?_, ?_, ?_, ?_, ?_⟩
  · simp [rgbToHex, toList_mk, byteHex]
  · simp [rgbToHex, toList_mk]
  · simp only [rgbToHex, toList_mk, byteHex, List.cons_append, List.nil_append,
      List.tail_cons, List.all_cons, List.all_nil, Bool.and_eq_true]
    have hr := clampByte_le r
    have hg := clampByte_le g
    have hb := clampByte_le b
    exact ⟨lowerHex_toHexChar _ (by omega), lowerHex_toHexChar _ (by omega),
      lowerHex_toHexChar _ (by omega), lowerHex_toHexChar _ (by omega),
      lowerHex_toHexChar _ (by omega), lowerHex_toHexChar _ (by omega), trivial⟩
  · simp [rgbToHex, clampByte_clampChannel]
  · intro x; unfold clampChannel; split_ifs <;> omega

/-- C5: `rgbToCmyk` applied to pure black (0, 0, 0) returns exactly
(c 0, m 0, y 0, k 100), via the divide-by-zero convention. -/
theorem c5_pure_black_cmyk : rgbToCmyk ⟨0, 0, 0⟩ = ⟨0, 0, 0, 100⟩ := by
  norm_num [rgbToCmyk, clampByte]

/-- C2: for every RGB value with integer channels in [0,255], each of the
four lossy round trips — hslToRgb ∘ rgbToHsl, cmykToRgb ∘ rgbToCmyk,
hclToRgb ∘ rgbToHcl, oklchToRgb ∘ rgbToOklch — returns an RGB value whose
every channel differs from the original by at most 1 (each is in fact
exact, as the reverse paths invert each stage). -/
theorem c2_lossy_round_trips (rgb : RGB) (h0r : 0 ≤ rgb.r) (h1r : rgb.r ≤ 255)
    (h0g : 0 ≤ rgb.g) (h1g : rgb.g ≤ 255) (h0b : 0 ≤ rgb.b) (h1b : rgb.b ≤ 255) :
    (∃ out : RGB, hslToRgb (rgbToHsl rgb) = Except.ok out ∧
      |out.r - rgb.r| ≤ 1 ∧ |out.g - rgb.g| ≤ 1 ∧ |out.b - rgb.b| ≤ 1) ∧
    (∃ out : RGB, cmykToRgb (rgbToCmyk rgb) = Except.ok out ∧
      |out.r - rgb.r| ≤ 1 ∧ |out.g - rgb.g| ≤ 1 ∧ |out.b - rgb.b| ≤ 1) ∧
    (|(hclToRgb (rgbToHcl rgb)).r - rgb.r| ≤ 1 ∧
      |(hclToRgb (rgbToHcl rgb)).g - rgb.g| ≤ 1 ∧
      |(hclToRgb (rgbToHcl rgb)).b - rgb.b| ≤ 1) ∧
    (|(oklchToRgb (rgbToOklch rgb)).r - rgb.r| ≤ 1 ∧
      |(oklchToRgb (rgbToOklch rgb)).g - rgb.g| ≤ 1 ∧
      |(oklchToRgb (rgbToOklch rgb)).b - rgb.b| ≤ 1) := by
  have h1 := hsl_round_exact rgb h0r h1r h0g h1g h0b h1b
  have h2 := cmyk_round_exact rgb h0r h1r h0g h1g h0b h1b
  have h3 := hcl_round_exact rgb h0r h1r h0g h1g h0b h1b
  have h4 := oklch_round_exact rgb h0r h1r h0g h1g h0b h1b
  refine ⟨⟨rgb, h1, by simp, by simp, by simp⟩,
    ⟨rgb, h2, by simp, by simp, by simp⟩, ?_, ?_⟩
  · rw [h3]
    refine ⟨?_, ?_, ?_⟩ <;> simp
  · rw [h4]
    refine ⟨?_, ?_, ?_⟩ <;> simp

/-- Witness for C2 at the RGB value (10, 20, 250). -/
theorem c2_lossy_round_trips_witness :
    (∃ out : RGB, hslToRgb (rgbToHsl ⟨10, 20, 250⟩) = Except.ok out ∧
      |out.r - 10| ≤ 1 ∧ |out.g - 20| ≤ 1 ∧ |out.b - 250| ≤ 1) ∧
    (∃ out : RGB, cmykToRgb (rgbToCmyk ⟨10, 20, 250⟩) = Except.ok out ∧
      |out.r - 10| ≤ 1 ∧ |out.g - 20| ≤ 1 ∧ |out.b - 250| ≤ 1) ∧
    (|(hclToRgb (rgbToHcl ⟨10, 20, 250⟩)).r - 10| ≤ 1 ∧
      |(hclToRgb (rgbToHcl ⟨10, 20, 250⟩)).g - 20| ≤ 1 ∧
      |(hclToRgb (rgbToHcl ⟨10, 20, 250⟩)).b - 250| ≤ 1) ∧
    (|(oklchToRgb (rgbToOklch ⟨10, 20, 250⟩)).r - 10| ≤ 1 ∧
      |(oklchToRgb (rgbToOklch ⟨10, 20, 250⟩)).g - 20| ≤ 1 ∧
      |(oklchToRgb (rgbToOklch ⟨10, 20, 250⟩)).b - 250| ≤ 1) :=
  c2_lossy_round_trips ⟨10, 20, 250⟩ (by decide) (by decide) (by decide)
    (by decide) (by decide) (by decide)
